import Mathlib

/-!
# Verification development for the range-data iteration layer and its consumers

Part I embeds `pkg/storage/sst_writer.go` (the `SSTWriter` type, its
constructors and its methods) as pure state-passing functions.

Part II models the range-data iterators of `pkg/kv/kvserver/rditer`, whose
implementation is exercised by `replica_data_iter_test.go`.

Part III embeds the sum hash aggregators of
`pkg/sql/colexec/colexecagg/hash_sum_agg.eg.go`.

Part IV embeds `pkg/sql/copy.go`: the escape decoder `decodeCopy` and the
methods `processCopyData`, `addRow` and `insertRows` of `copyMachine`.
-/

set_option autoImplicit false

/-! ## Part I: `pkg/storage/sst_writer.go` -/

namespace storage

/-- A Go `[]byte` (also `roachpb.Key`). -/
abbrev Bytes := List UInt8

/-- A Go `error` value; `Option Error` is a possibly-nil error. -/
abbrev Error := String

/-- A Go run-time panic (explicit `panic(...)` or a nil dereference). -/
abbrev Panic := String

/-- Go `int64` arithmetic: the value of an integer expression after wrap-around. -/
def wrapInt64 (x : Int) : Int := (x + 2 ^ 63) % 2 ^ 64 - 2 ^ 63

/-- The Go expression `int64(len(b))`. -/
def len64 (b : Bytes) : Int := (b.length : Int)

/-- The type `hlc.Timestamp`, as far as this file uses it. -/
structure Timestamp where
  WallTime : Int
  Logical : Int
  deriving DecidableEq, Repr

/-- The type `MVCCKey`: a user key and a version. -/
structure MVCCKey where
  Key : Bytes
  Timestamp : Timestamp
  deriving DecidableEq, Repr

/-- The type `MVCCRangeKey`: a versioned key interval. -/
structure MVCCRangeKey where
  StartKey : Bytes
  EndKey : Bytes
  Timestamp : Timestamp
  deriving DecidableEq, Repr

/-- The type `EngineKey`: a key and an encoded version. -/
structure EngineKey where
  Key : Bytes
  Version : Bytes
  deriving DecidableEq, Repr

/-- The table formats of `sstable.TableFormat`, oldest first. -/
inductive TableFormat
  | LevelDB
  | RocksDBv2
  | Pebblev1
  | Pebblev2
  deriving DecidableEq, Repr

/-- Numeric value of a table format; the source compares formats with `<` and `>=`. -/
def TableFormat.toNat : TableFormat → Nat
  | .LevelDB => 1
  | .RocksDBv2 => 2
  | .Pebblev1 => 3
  | .Pebblev2 => 4

/-- The fields of `sstable.WriterOptions` that `sst_writer.go` reads or writes. -/
structure WriterOptions where
  TableFormat : TableFormat
  BlockPropertyCollectors : List String
  FilterPolicy : Option String
  BlockSize : Nat
  MergerName : String
  deriving DecidableEq, Repr

/-- The two cluster-version gates consulted by `MakeIngestionWriterOptions`. -/
inductive VersionKey
  | EnablePebbleFormatVersionRangeKeys
  | EnablePebbleFormatVersionBlockProperties
  deriving DecidableEq, Repr

/-- The type `cluster.Settings`: `IsActive k` is `cs.Version.IsActive(ctx, k)`. -/
structure Settings where
  IsActive : VersionKey → Bool

/-- A call made on the underlying `*sstable.Writer`. -/
inductive WriterOp
  | Set (key value : Bytes)
  | Merge (key value : Bytes)
  | Delete (key : Bytes)
  | DeleteRange (start finish : Bytes)
  | RangeKeySet (start finish suffix value : Bytes)
  | RangeKeyUnset (start finish suffix : Bytes)
  | RangeKeyDelete (start finish : Bytes)
  | Close
  deriving DecidableEq, Repr

/-- The object behind `SSTWriter.fw`: the options it was created with and the
calls it has received so far, oldest first. -/
structure SstableWriter where
  opts : WriterOptions
  calls : List WriterOp
  deriving DecidableEq, Repr

/-- The type `SSTWriter`. `fw = none` is the Go `nil` pointer (a closed writer);
`f` identifies the `io.Writer` the table is written to. -/
structure SSTWriter where
  fw : Option SstableWriter
  f : Nat
  DataSize : Int
  scratch : Bytes
  supportsRangeKeys : Bool
  deriving DecidableEq, Repr

/-- Everything `sst_writer.go` calls that lives outside the file, taken as
parameters: `writerErr sw op` is the error the pebble writer `sw` returns for
the call `op`; `MakeWriterOptions format` is
`DefaultPebbleOptions().MakeWriterOptions(0, format)`; the rest are the MVCC
codecs and validators of package `storage`, `hlc.MinTimestamp` and
`hlc.Timestamp.IsEmpty`. `V` is the type `MVCCValue`. -/
structure Env (V : Type) where
  writerErr : SstableWriter → WriterOp → Option Error
  MakeWriterOptions : TableFormat → WriterOptions
  Validate : MVCCRangeKey → Option Error
  IsTombstone : V → Bool
  EncodeMVCCValue : V → Except Error Bytes
  EncodeMVCCKeyPrefix : Bytes → Bytes
  EncodeMVCCTimestampSuffix : Timestamp → Bytes
  EncodeMVCCKey : MVCCKey → Bytes
  EncodeMVCCKeyToBuf : Bytes → MVCCKey → Bytes
  EngineKeyEncode : EngineKey → Bytes
  EngineKeyEncodeToBuf : EngineKey → Bytes → Bytes
  MinTimestamp : Timestamp
  IsEmpty : Timestamp → Bool

/-- What a method call leaves behind: the receiver after the call, the returned
error (`none` is `nil`), and the calls it issued on the underlying writer. -/
structure Ret where
  fw : SSTWriter
  err : Option Error
  issued : List WriterOp
  deriving DecidableEq, Repr

/-- The statement `return fw.fw.M(...)`: dereferencing a nil `fw.fw` panics;
otherwise the call is recorded and its error is returned. -/
def callWriter {V : Type} (env : Env V) (fw : SSTWriter) (op : WriterOp) : Except Panic Ret :=
  match fw.fw with
  | none => .error "nil pointer dereference"
  | some sw =>
    .ok { fw := { fw with fw := some { sw with calls := sw.calls ++ [op] } },
          err := env.writerErr sw op,
          issued := [op] }

/-- The function `MakeIngestionWriterOptions`. -/
def MakeIngestionWriterOptions {V : Type} (env : Env V) (cs : Settings) : WriterOptions :=
  let format :=
    if cs.IsActive .EnablePebbleFormatVersionRangeKeys then TableFormat.Pebblev2
    else if cs.IsActive .EnablePebbleFormatVersionBlockProperties then TableFormat.Pebblev1
    else TableFormat.RocksDBv2
  let opts := env.MakeWriterOptions format
  let opts :=
    if format.toNat < TableFormat.Pebblev1.toNat then
      { opts with BlockPropertyCollectors := [] }
    else opts
  { opts with MergerName := "nullptr" }

/-- The call `sstable.NewWriter(f, opts)`: a fresh writer that has received no call. -/
def NewWriter (opts : WriterOptions) : SstableWriter :=
  { opts := opts, calls := [] }

/-- The function `MakeIngestionSSTWriter`. -/
def MakeIngestionSSTWriter {V : Type} (env : Env V) (cs : Settings) (f : Nat) : SSTWriter :=
  let opts := MakeIngestionWriterOptions env cs
  { fw := some (NewWriter opts),
    f := f,
    DataSize := 0,
    scratch := [],
    supportsRangeKeys := decide (TableFormat.Pebblev2.toNat ≤ opts.TableFormat.toNat) }

/-- The method `SSTWriter.Finish`. When the underlying `Close` fails, `fw.fw` keeps
pointing at the writer (which has received the call). -/
def SSTWriter.Finish {V : Type} (env : Env V) (fw : SSTWriter) : Ret :=
  match fw.fw with
  | none => { fw := fw, err := some "cannot call Finish on a closed writer", issued := [] }
  | some sw =>
    let sw1 : SstableWriter := { sw with calls := sw.calls ++ [WriterOp.Close] }
    match env.writerErr sw WriterOp.Close with
    | some err => { fw := { fw with fw := some sw1 }, err := some err, issued := [WriterOp.Close] }
    | none => { fw := { fw with fw := none }, err := none, issued := [WriterOp.Close] }

/-- The method `SSTWriter.Close`; it returns nothing, so `err` is always `none`. -/
def SSTWriter.Close {V : Type} (_env : Env V) (fw : SSTWriter) : Ret :=
  match fw.fw with
  | none => { fw := fw, err := none, issued := [] }
  | some _ => { fw := { fw with fw := none }, err := none, issued := [WriterOp.Close] }

/-- The method `SSTWriter.PutMVCCRangeKey`. -/
def SSTWriter.PutMVCCRangeKey {V : Type} (env : Env V) (fw : SSTWriter)
    (rangeKey : MVCCRangeKey) (value : V) : Except Panic Ret :=
  if !fw.supportsRangeKeys then
    .ok { fw := fw, err := some "range keys not supported by SST writer", issued := [] }
  else
    match env.Validate rangeKey with
    | some err => .ok { fw := fw, err := some err, issued := [] }
    | none =>
      if !env.IsTombstone value then
        .ok { fw := fw, err := some "range keys can only be MVCC range tombstones", issued := [] }
      else
        match env.EncodeMVCCValue value with
        | .error err =>
          .ok { fw := fw,
                err := some ("failed to encode MVCC value for range key: " ++ err),
                issued := [] }
        | .ok valueRaw =>
          let added := len64 rangeKey.StartKey + len64 rangeKey.EndKey + len64 valueRaw
          let fw1 := { fw with DataSize := wrapInt64 (fw.DataSize + added) }
          callWriter env fw1 (WriterOp.RangeKeySet
            (env.EncodeMVCCKeyPrefix rangeKey.StartKey)
            (env.EncodeMVCCKeyPrefix rangeKey.EndKey)
            (env.EncodeMVCCTimestampSuffix rangeKey.Timestamp)
            valueRaw)

/-- The method `SSTWriter.ClearMVCCRangeKey`. -/
def SSTWriter.ClearMVCCRangeKey {V : Type} (env : Env V) (fw : SSTWriter)
    (rangeKey : MVCCRangeKey) : Except Panic Ret :=
  if !fw.supportsRangeKeys then
    .ok { fw := fw, err := none, issued := [] }
  else
    match env.Validate rangeKey with
    | some err => .ok { fw := fw, err := some err, issued := [] }
    | none =>
      let added := len64 rangeKey.StartKey + len64 rangeKey.EndKey
      let fw1 := { fw with DataSize := wrapInt64 (fw.DataSize + added) }
      callWriter env fw1 (WriterOp.RangeKeyUnset
        (env.EncodeMVCCKeyPrefix rangeKey.StartKey)
        (env.EncodeMVCCKeyPrefix rangeKey.EndKey)
        (env.EncodeMVCCTimestampSuffix rangeKey.Timestamp))

/-- The method `SSTWriter.ClearAllRangeKeys`. -/
def SSTWriter.ClearAllRangeKeys {V : Type} (env : Env V) (fw : SSTWriter)
    (start finish : Bytes) : Except Panic Ret :=
  if !fw.supportsRangeKeys then
    .ok { fw := fw, err := none, issued := [] }
  else
    let rangeKey : MVCCRangeKey :=
      { StartKey := start, EndKey := finish, Timestamp := env.MinTimestamp }
    match env.Validate rangeKey with
    | some err => .ok { fw := fw, err := some err, issued := [] }
    | none =>
      let added := len64 start + len64 finish
      let fw1 := { fw with DataSize := wrapInt64 (fw.DataSize + added) }
      callWriter env fw1 (WriterOp.RangeKeyDelete
        (env.EncodeMVCCKeyPrefix start) (env.EncodeMVCCKeyPrefix finish))

/-- The method `SSTWriter.PutEngineRangeKey`. -/
def SSTWriter.PutEngineRangeKey {V : Type} (env : Env V) (fw : SSTWriter)
    (start finish suffix value : Bytes) : Except Panic Ret :=
  let added := len64 start + len64 finish + len64 value
  let fw1 := { fw with DataSize := wrapInt64 (fw.DataSize + added) }
  callWriter env fw1 (WriterOp.RangeKeySet
    (env.EngineKeyEncode { Key := start, Version := [] })
    (env.EngineKeyEncode { Key := finish, Version := [] })
    suffix value)

/-- An environment for evaluating the writer on concrete inputs: default
options that carry the requested table format and a bloom filter policy,
identity codecs, every range key valid, the empty value as the only tombstone,
and an underlying writer that accepts every call. -/
def plainEnv : Env Bytes :=
  { writerErr := fun _ _ => none,
    MakeWriterOptions := fun format =>
      { TableFormat := format, BlockPropertyCollectors := ["MVCCTimeInterval"],
        FilterPolicy := some "bloom", BlockSize := 32768,
        MergerName := "cockroach_merge_operator" },
    Validate := fun _ => none,
    IsTombstone := fun v => v.isEmpty,
    EncodeMVCCValue := fun v => .ok v,
    EncodeMVCCKeyPrefix := fun k => k,
    EncodeMVCCTimestampSuffix := fun _ => [],
    EncodeMVCCKey := fun k => k.Key,
    EncodeMVCCKeyToBuf := fun buf k => buf ++ k.Key,
    EngineKeyEncode := fun k => k.Key,
    EngineKeyEncodeToBuf := fun k buf => buf ++ k.Key,
    MinTimestamp := { WallTime := 0, Logical := 1 },
    IsEmpty := fun t => t.WallTime == 0 && t.Logical == 0 }

/-- An open writer created for a cluster with neither version gate active. -/
def oldFormatWriter : SSTWriter :=
  MakeIngestionSSTWriter plainEnv { IsActive := fun _ => false } 0

/-- The method `SSTWriter.clearRange`. -/
def SSTWriter.clearRange {V : Type} (env : Env V) (fw : SSTWriter) (start finish : MVCCKey) :
    Except Panic Ret :=
  if fw.fw.isNone then
    .ok { fw := fw, err := some "cannot call ClearRange on a closed writer", issued := [] }
  else
    let added := len64 start.Key + len64 finish.Key
    let fw1 := { fw with DataSize := wrapInt64 (fw.DataSize + added) }
    let fw2 := { fw1 with scratch := env.EncodeMVCCKeyToBuf [] start }
    callWriter env fw2 (WriterOp.DeleteRange fw2.scratch (env.EncodeMVCCKey finish))

/-- The method `SSTWriter.ClearRawRange`. -/
def SSTWriter.ClearRawRange {V : Type} (env : Env V) (fw : SSTWriter) (start finish : Bytes) :
    Except Panic Ret :=
  match SSTWriter.clearRange env fw
      { Key := start, Timestamp := { WallTime := 0, Logical := 0 } }
      { Key := finish, Timestamp := { WallTime := 0, Logical := 0 } } with
  | .error p => .error p
  | .ok r =>
    match r.err with
    | some err => .ok { fw := r.fw, err := some err, issued := r.issued }
    | none =>
      match SSTWriter.ClearAllRangeKeys env r.fw start finish with
      | .error p => .error p
      | .ok r2 => .ok { fw := r2.fw, err := r2.err, issued := r.issued ++ r2.issued }

/-- The method `SSTWriter.ClearMVCCVersions`. -/
def SSTWriter.ClearMVCCVersions {V : Type} (env : Env V) (fw : SSTWriter)
    (start finish : MVCCKey) : Except Panic Ret :=
  SSTWriter.clearRange env fw start finish

/-- The method `SSTWriter.Put`. -/
def SSTWriter.Put {V : Type} (env : Env V) (fw : SSTWriter) (key : MVCCKey) (value : Bytes) :
    Except Panic Ret :=
  if fw.fw.isNone then
    .ok { fw := fw, err := some "cannot call Put on a closed writer", issued := [] }
  else
    let added := len64 key.Key + len64 value
    let fw1 := { fw with DataSize := wrapInt64 (fw.DataSize + added) }
    let fw2 := { fw1 with scratch := env.EncodeMVCCKeyToBuf [] key }
    callWriter env fw2 (WriterOp.Set fw2.scratch value)

/-- The method `SSTWriter.put`. -/
def SSTWriter.put {V : Type} (env : Env V) (fw : SSTWriter) (key : MVCCKey) (value : Bytes) :
    Except Panic Ret :=
  if fw.fw.isNone then
    .ok { fw := fw, err := some "cannot call Put on a closed writer", issued := [] }
  else
    let added := len64 key.Key + len64 value
    let fw1 := { fw with DataSize := wrapInt64 (fw.DataSize + added) }
    let fw2 := { fw1 with scratch := env.EncodeMVCCKeyToBuf [] key }
    callWriter env fw2 (WriterOp.Set fw2.scratch value)

/-- The method `SSTWriter.PutMVCC`. -/
def SSTWriter.PutMVCC {V : Type} (env : Env V) (fw : SSTWriter) (key : MVCCKey) (value : V) :
    Except Panic Ret :=
  if env.IsEmpty key.Timestamp then
    .error "PutMVCC timestamp is empty"
  else
    match env.EncodeMVCCValue value with
    | .error err => .ok { fw := fw, err := some err, issued := [] }
    | .ok encValue => SSTWriter.put env fw key encValue

/-- The method `SSTWriter.PutRawMVCC`. -/
def SSTWriter.PutRawMVCC {V : Type} (env : Env V) (fw : SSTWriter) (key : MVCCKey)
    (value : Bytes) : Except Panic Ret :=
  if env.IsEmpty key.Timestamp then
    .error "PutRawMVCC timestamp is empty"
  else
    SSTWriter.put env fw key value

/-- The method `SSTWriter.PutUnversioned`. -/
def SSTWriter.PutUnversioned {V : Type} (env : Env V) (fw : SSTWriter) (key value : Bytes) :
    Except Panic Ret :=
  SSTWriter.put env fw { Key := key, Timestamp := { WallTime := 0, Logical := 0 } } value

/-- The method `SSTWriter.PutIntent`; the transaction id `txnUUID` is not used. -/
def SSTWriter.PutIntent {V : Type} (env : Env V) (fw : SSTWriter) (key value : Bytes)
    (_txnUUID : Bytes) : Except Panic Ret :=
  SSTWriter.put env fw { Key := key, Timestamp := { WallTime := 0, Logical := 0 } } value

/-- The method `SSTWriter.PutEngineKey`. -/
def SSTWriter.PutEngineKey {V : Type} (env : Env V) (fw : SSTWriter) (key : EngineKey)
    (value : Bytes) : Except Panic Ret :=
  if fw.fw.isNone then
    .ok { fw := fw, err := some "cannot call Put on a closed writer", issued := [] }
  else
    let added := len64 key.Key + len64 value
    let fw1 := { fw with DataSize := wrapInt64 (fw.DataSize + added) }
    let fw2 := { fw1 with scratch := env.EngineKeyEncodeToBuf key [] }
    callWriter env fw2 (WriterOp.Set fw2.scratch value)

/-- The method `SSTWriter.clear`. -/
def SSTWriter.clear {V : Type} (env : Env V) (fw : SSTWriter) (key : MVCCKey) :
    Except Panic Ret :=
  if fw.fw.isNone then
    .ok { fw := fw, err := some "cannot call Clear on a closed writer", issued := [] }
  else
    let fw1 := { fw with scratch := env.EncodeMVCCKeyToBuf [] key }
    let fw2 := { fw1 with DataSize := wrapInt64 (fw1.DataSize + len64 key.Key) }
    callWriter env fw2 (WriterOp.Delete fw2.scratch)

/-- The method `SSTWriter.ClearMVCC`. -/
def SSTWriter.ClearMVCC {V : Type} (env : Env V) (fw : SSTWriter) (key : MVCCKey) :
    Except Panic Ret :=
  if env.IsEmpty key.Timestamp then
    .error "ClearMVCC timestamp is empty"
  else
    SSTWriter.clear env fw key

/-- The method `SSTWriter.ClearUnversioned`. -/
def SSTWriter.ClearUnversioned {V : Type} (env : Env V) (fw : SSTWriter) (key : Bytes) :
    Except Panic Ret :=
  SSTWriter.clear env fw { Key := key, Timestamp := { WallTime := 0, Logical := 0 } }

/-- The method `SSTWriter.ClearEngineKey`. -/
def SSTWriter.ClearEngineKey {V : Type} (env : Env V) (fw : SSTWriter) (key : EngineKey) :
    Except Panic Ret :=
  if fw.fw.isNone then
    .ok { fw := fw, err := some "cannot call Clear on a closed writer", issued := [] }
  else
    let fw1 := { fw with scratch := env.EngineKeyEncodeToBuf key [] }
    let fw2 := { fw1 with DataSize := wrapInt64 (fw1.DataSize + len64 key.Key) }
    callWriter env fw2 (WriterOp.Delete fw2.scratch)

/-- The method `SSTWriter.Merge`. -/
def SSTWriter.Merge {V : Type} (env : Env V) (fw : SSTWriter) (key : MVCCKey) (value : Bytes) :
    Except Panic Ret :=
  if fw.fw.isNone then
    .ok { fw := fw, err := some "cannot call Merge on a closed writer", issued := [] }
  else
    let added := len64 key.Key + len64 value
    let fw1 := { fw with DataSize := wrapInt64 (fw.DataSize + added) }
    let fw2 := { fw1 with scratch := env.EncodeMVCCKeyToBuf [] key }
    callWriter env fw2 (WriterOp.Merge fw2.scratch value)

/-- One call of the sequences that add entries: `Put`, `PutUnversioned`,
`PutRawMVCC`, `PutEngineKey` or `Merge`, with its arguments. -/
inductive AddCall
  | Put (key : MVCCKey) (value : Bytes)
  | PutUnversioned (key value : Bytes)
  | PutRawMVCC (key : MVCCKey) (value : Bytes)
  | PutEngineKey (key : EngineKey) (value : Bytes)
  | Merge (key : MVCCKey) (value : Bytes)
  deriving DecidableEq, Repr

/-- The method call an `AddCall` stands for. -/
def AddCall.run {V : Type} (env : Env V) (fw : SSTWriter) : AddCall → Except Panic Ret
  | .Put key value => SSTWriter.Put env fw key value
  | .PutUnversioned key value => SSTWriter.PutUnversioned env fw key value
  | .PutRawMVCC key value => SSTWriter.PutRawMVCC env fw key value
  | .PutEngineKey key value => SSTWriter.PutEngineKey env fw key value
  | .Merge key value => SSTWriter.Merge env fw key value

/-- The bytes of a call's entry: `len(key.Key) + len(value)`. -/
def AddCall.bytes : AddCall → Int
  | .Put key value => len64 key.Key + len64 value
  | .PutUnversioned key value => len64 key + len64 value
  | .PutRawMVCC key value => len64 key.Key + len64 value
  | .PutEngineKey key value => len64 key.Key + len64 value
  | .Merge key value => len64 key.Key + len64 value

/-- Whether the call does not panic: `PutRawMVCC` needs a non-empty timestamp. -/
def AddCall.admissible {V : Type} (env : Env V) : AddCall → Bool
  | .PutRawMVCC key _ => !env.IsEmpty key.Timestamp
  | _ => true

/-- A sequence of calls on one writer, in order: the writer after the last call
and the error each call returned (`none` is nil); a panic ends the run. -/
def runCalls {V : Type} (env : Env V) : SSTWriter → List AddCall →
    Except Panic (SSTWriter × List (Option Error))
  | fw, [] => .ok (fw, [])
  | fw, c :: rest =>
    match c.run env fw with
    | .error p => .error p
    | .ok r =>
      match runCalls env r.fw rest with
      | .error p => .error p
      | .ok (fw1, errs) => .ok (fw1, r.err :: errs)

/-- The sum of `len(key.Key) + len(value)` over the calls that returned nil. -/
def bytesOfAccepted : List AddCall → List (Option Error) → Int
  | c :: cs, none :: es => c.bytes + bytesOfAccepted cs es
  | _ :: cs, some _ :: es => bytesOfAccepted cs es
  | _, _ => 0

/-- The bytewise order of two keys (`bytes.Compare(a, b) < 0`). -/
def keyLess : Bytes → Bytes → Bool
  | [], [] => false
  | [], _ :: _ => true
  | _ :: _, [] => false
  | a :: as, b :: bs =>
    if a.toNat < b.toNat then true
    else if b.toNat < a.toNat then false
    else keyLess as bs

/-- An environment like `plainEnv` whose underlying writer checks the order of
the keys it is given, as an sstable writer does: it rejects a `Set` or `Merge`
whose key sorts below the key of an earlier `Set` or `Merge` (keys in
decreasing order); a key equal to the last one is accepted. With the
encodings of `plainEnv` the encoded key is the user key, and the order is the
bytewise order. -/
def strictEnv : Env Bytes :=
  { plainEnv with
    writerErr := fun sw op =>
      match op with
      | .Set key _ =>
        if sw.calls.any (fun c => match c with
            | .Set k _ => keyLess key k
            | .Merge k _ => keyLess key k
            | _ => false)
        then some "pebble: keys must be added in order" else none
      | .Merge key _ =>
        if sw.calls.any (fun c => match c with
            | .Set k _ => keyLess key k
            | .Merge k _ => keyLess key k
            | _ => false)
        then some "pebble: keys must be added in order" else none
      | _ => none }

/-- An environment like `plainEnv` whose underlying writer fails to close. -/
def failingCloseEnv : Env Bytes :=
  { plainEnv with
    writerErr := fun _ op =>
      match op with
      | .Close => some "write failed"
      | _ => none }

end storage

/-! ## Part II: the range-data iterators of `pkg/kv/kvserver/rditer`

The package's implementation files are not among the sources (only
`replica_data_iter_test.go` is), so the KeyRange model and the two iterators
are modelled from the specification, and, where the sequences that
`replica_data_iter_test.go` expects say more than the specification or say
otherwise, from those sequences. Keys are the elements of a linear order `K`
(the global key ordering); versions are natural numbers. -/

namespace rditer

/-- A `roachpb.RangeDescriptor` as the tests build it: the range identity and
the half-open span `[StartKey, EndKey)`. -/
structure RangeDescriptor (K : Type) where
  RangeID : Nat
  StartKey : K
  EndKey : K
  deriving DecidableEq, Repr

/-- Modelled from the spec: the type `KeyRange` (§3), an ordered pair
`(Start, End)` of engine keys, half-open. -/
structure KeyRange (K : Type) where
  Start : K
  End : K
  deriving DecidableEq, Repr

/-- Modelled from the spec: the range/key encoding layer (§6, package `keys`),
an external collaborator that derives the bounds of each key-space category of
§3 from the range identity (ID-scoped categories) or from the range span
(span-scoped categories): the range-ID-scoped metadata as a whole, its
replicated and its unreplicated subset, the lock table and the range-local
keys. -/
structure KeyEncoding (K : Type) where
  rangeID : Nat → KeyRange K
  rangeIDReplicated : Nat → KeyRange K
  rangeIDUnreplicated : Nat → KeyRange K
  lockTable : K → K → KeyRange K
  rangeLocal : K → K → KeyRange K

/-- Modelled from the spec: `MakeAllKeyRanges` (§4.1, selection "All"): range-ID
metadata, lock table, range-local-by-key metadata, user-data span, in that
order. The range-ID metadata, replicated and unreplicated, is one KeyRange:
`TestReplicaDataIterator` expects the point keys of both subsets before the
range keys of either, and the replicated keys before the unreplicated ones. -/
def MakeAllKeyRanges {K : Type} (enc : KeyEncoding K) (d : RangeDescriptor K) : List (KeyRange K) :=
  [enc.rangeID d.RangeID,
   enc.lockTable d.StartKey d.EndKey,
   enc.rangeLocal d.StartKey d.EndKey,
   { Start := d.StartKey, End := d.EndKey }]

/-- Modelled from the spec: `MakeReplicatedKeyRanges` (§4.1, selection
"Replicated"): the replicated range-ID metadata, the range-local-by-key
metadata and the user-data span; neither the unreplicated range-ID metadata
nor the lock table. -/
def MakeReplicatedKeyRanges {K : Type} (enc : KeyEncoding K) (d : RangeDescriptor K) :
    List (KeyRange K) :=
  [enc.rangeIDReplicated d.RangeID,
   enc.rangeLocal d.StartKey d.EndKey,
   { Start := d.StartKey, End := d.EndKey }]

/-- Modelled from the spec: an engine entry (§3, §9), a tagged variant: a point
entry (key, version, value) or a range entry (interval `[start, finish)`,
version, payload). -/
inductive Entry (K V : Type) where
  | point (key : K) (version : Nat) (value : V)
  | range (start finish : K) (version : Nat) (payload : V)
  deriving DecidableEq, Repr

/-- Whether an entry is a point entry. -/
def Entry.isPoint {K V : Type} : Entry K V → Bool
  | .point _ _ _ => true
  | .range _ _ _ _ => false

/-- Modelled from the spec: whether a bounded cursor over `[lower, upper)`
shows the entry: a point whose key is inside the bounds, or a range entry whose
intersection with the bounds is not empty. -/
def Entry.visible {K V : Type} [LinearOrder K] (lower upper : K) : Entry K V → Bool
  | .point k _ _ => decide (lower ≤ k ∧ k < upper)
  | .range s e _ _ => decide (max s lower < min e upper)

/-- Modelled from the spec: a read handle into the storage engine (§5, §6): the
stored entries in engine order (the order in which a cursor meets those it
shows), the I/O fault (if any) every cursor on
the handle reports, and, when the handle is wrapped by the read-authorization
wrapper of §4.3, the declared read set as a predicate on key and version. -/
structure Reader (K V : Type) where
  entries : List (Entry K V)
  fault : Option storage.Error
  declared : Option (K → Nat → Bool)

/-- A healthy read handle without the read-authorization wrapper (an engine
snapshot, as the tests take it) over the given stored entries. -/
def Reader.plain {K V : Type} (entries : List (Entry K V)) : Reader K V :=
  { entries := entries, fault := none, declared := none }

/-- Modelled from the spec: the engine cursor of §6 in zipper form: the entries
inside the bounds that lie before the position (nearest first) and those at
and after it (the head of `pending` is the current entry). -/
structure Cursor (K V : Type) where
  before : List (Entry K V)
  pending : List (Entry K V)
  fault : Option storage.Error
  declared : Option (K → Nat → Bool)

/-- Modelled from the spec: the key types a cursor of §6 is opened for
(`storage.IterKeyType`): point entries only or range entries only. -/
inductive IterKeyType where
  | PointsOnly
  | RangesOnly
  deriving DecidableEq, Repr

/-- Whether a cursor of the key type shows the entry. -/
def IterKeyType.shows {K V : Type} : IterKeyType → Entry K V → Bool
  | .PointsOnly, e => e.isPoint
  | .RangesOnly, e => !e.isPoint

/-- Modelled from the spec: the entries a cursor of key type `kt` over
`[lower, upper)` can reach (§6), in engine order. -/
def Reader.inBounds {K V : Type} [LinearOrder K] (r : Reader K V) (lower upper : K)
    (kt : IterKeyType) : List (Entry K V) :=
  r.entries.filter (fun e => e.visible lower upper && kt.shows e)

/-- Modelled from the spec: `newCursor(lowerBound, upperBound)` followed by
`seekToBound`: forward, the cursor stands on the first reachable entry;
in reverse, on the last one. -/
def Reader.newCursor {K V : Type} [LinearOrder K] (r : Reader K V) (lower upper : K)
    (kt : IterKeyType) (seekEnd : Bool) : Cursor K V :=
  let items := r.inBounds lower upper kt
  if seekEnd then
    match items.reverse with
    | [] => { before := [], pending := [], fault := r.fault, declared := r.declared }
    | last :: front => { before := front, pending := [last], fault := r.fault, declared := r.declared }
  else
    { before := [], pending := items, fault := r.fault, declared := r.declared }

/-- Whether the read set (if any) permits reading the entry. -/
def Cursor.permits {K V : Type} (c : Cursor K V) (e : Entry K V) : Bool :=
  match c.declared, e with
  | none, _ => true
  | some ok, .point k ver _ => ok k ver
  | some ok, .range s _ ver _ => ok s ver

/-- Modelled from the spec: `Cursor.valid()`: an engine fault or a read outside
the declared read set is an error; otherwise the cursor is valid when it
stands on an entry. -/
def Cursor.valid {K V : Type} (c : Cursor K V) : Bool × Option storage.Error :=
  match c.fault with
  | some err => (false, some err)
  | none =>
    match c.pending with
    | [] => (false, none)
    | e :: _ => if c.permits e then (true, none) else (false, some "undeclared span access")

/-- Modelled from the spec: `Cursor.step()`, forward. -/
def Cursor.step {K V : Type} (c : Cursor K V) : Cursor K V :=
  match c.pending with
  | [] => c
  | e :: rest => { c with before := e :: c.before, pending := rest }

/-- Modelled from the spec: `Cursor.step(reverse)`; stepping back from the first
entry leaves the cursor on no entry. -/
def Cursor.stepBack {K V : Type} (c : Cursor K V) : Cursor K V :=
  match c.before with
  | [] => { c with pending := [] }
  | e :: front => { c with before := front, pending := e :: c.pending }

/-- Modelled from the spec: the buckets of §4.2 as the passes of the walk over
a KeyRange list: every KeyRange (bucket) is walked twice, first by a cursor over its point entries, then by a cursor over
its range entries. `TestReplicaDataIterator` expects the sequence of
`createRangeData`, in which the point keys of a KeyRange come before its range
keys, also before a range key that starts below them. -/
def passes {K : Type} : List (KeyRange K) → List (KeyRange K × IterKeyType)
  | [] => []
  | kr :: rest => (kr, IterKeyType.PointsOnly) :: (kr, IterKeyType.RangesOnly) :: passes rest

/-- Modelled from the spec: the state machine of §4.2,
`Closed → Positioned(bucket i, underlying cursor state) → Exhausted`; the
bucket and the key type of its cursor are given as the index of the pass. -/
inductive Position (K V : Type) where
  | Closed
  | Positioned (pass : Nat) (cur : Cursor K V)
  | Exhausted

/-- Modelled from the spec: the Engine Data Iterator (§4.2): the read handle,
the KeyRange list that drives the walk, and the state. -/
structure ReplicaEngineDataIterator (K V : Type) where
  reader : Reader K V
  ranges : List (KeyRange K)
  pos : Position K V

/-- Modelled from the spec: `NewReplicaEngineDataIterator` (§4.2, selection
modes): `replicatedOnly` selects which KeyRange list drives the walk. -/
def NewReplicaEngineDataIterator {K V : Type} (enc : KeyEncoding K) (desc : RangeDescriptor K)
    (reader : Reader K V) (replicatedOnly : Bool) : ReplicaEngineDataIterator K V :=
  { reader := reader,
    ranges := if replicatedOnly then MakeReplicatedKeyRanges enc desc else MakeAllKeyRanges enc desc,
    pos := Position.Closed }

/-- Modelled from the spec: open the cursor of pass `i` and, while the pass
shows nothing, move on to the next one (§4.2); returns the new state, "found"
and the error. -/
def seekBuckets {K V : Type} [LinearOrder K] (reader : Reader K V) :
    List (KeyRange K × IterKeyType) → Nat → Position K V × Bool × Option storage.Error
  | [], _ => (Position.Exhausted, false, none)
  | p :: rest, i =>
    let cur := reader.newCursor p.1.Start p.1.End p.2 false
    match cur.valid with
    | (_, some err) => (Position.Exhausted, false, some err)
    | (true, none) => (Position.Positioned i cur, true, none)
    | (false, none) => seekBuckets reader rest (i + 1)

/-- Modelled from the spec: `SeekStart()` (§4.2). -/
def ReplicaEngineDataIterator.SeekStart {K V : Type} [LinearOrder K]
    (it : ReplicaEngineDataIterator K V) :
    ReplicaEngineDataIterator K V × Bool × Option storage.Error :=
  let r := seekBuckets it.reader (passes it.ranges) 0
  ({ it with pos := r.1 }, r.2.1, r.2.2)

/-- Modelled from the spec: `Next()` (§4.2): advance the cursor; past the end
of the current pass, open the next passes until an entry is found or all
buckets are exhausted. -/
def ReplicaEngineDataIterator.Next {K V : Type} [LinearOrder K]
    (it : ReplicaEngineDataIterator K V) :
    ReplicaEngineDataIterator K V × Bool × Option storage.Error :=
  match it.pos with
  | Position.Positioned i cur =>
    let cur1 := cur.step
    match cur1.valid with
    | (_, some err) => ({ it with pos := Position.Exhausted }, false, some err)
    | (true, none) => ({ it with pos := Position.Positioned i cur1 }, true, none)
    | (false, none) =>
      let r := seekBuckets it.reader ((passes it.ranges).drop (i + 1)) (i + 1)
      ({ it with pos := r.1 }, r.2.1, r.2.2)
  | _ => (it, false, none)

/-- The entry under the iterator and the bucket it belongs to. -/
def ReplicaEngineDataIterator.current {K V : Type} (it : ReplicaEngineDataIterator K V) :
    Option (Entry K V × KeyRange K) :=
  match it.pos with
  | Position.Positioned i cur =>
    match cur.pending, (passes it.ranges).get? i with
    | e :: _, some p => some (e, p.1)
    | _, _ => none
  | _ => none

/-- Modelled from the spec: `HasPointAndRange()` (§4.2). -/
def ReplicaEngineDataIterator.HasPointAndRange {K V : Type} (it : ReplicaEngineDataIterator K V) :
    Bool × Bool :=
  match it.current with
  | some (e, _) => (e.isPoint, !e.isPoint)
  | none => (false, false)

/-- Modelled from the spec: `UnsafeKey()` (§4.2): the current point entry's key
and version. -/
def ReplicaEngineDataIterator.UnsafeKey {K V : Type} (it : ReplicaEngineDataIterator K V) :
    Option (K × Nat) :=
  match it.current with
  | some (.point k ver _, _) => some (k, ver)
  | _ => none

/-- Modelled from the spec: `RangeBounds()` (§4.2): the current range entry
intersected with the active bucket's KeyRange. -/
def ReplicaEngineDataIterator.RangeBounds {K V : Type} [LinearOrder K]
    (it : ReplicaEngineDataIterator K V) : Option (KeyRange K) :=
  match it.current with
  | some (.range s e _ _, kr) => some { Start := max s kr.Start, End := min e kr.End }
  | _ => none

/-- Modelled from the spec: `RangeKeys()` (§4.2): the versions (and payloads)
of the current range entry. -/
def ReplicaEngineDataIterator.RangeKeys {K V : Type} (it : ReplicaEngineDataIterator K V) :
    List (Nat × V) :=
  match it.current with
  | some (.range _ _ ver p, _) => [(ver, p)]
  | _ => []

/-- The loop `for ok, err = SeekStart(); ok && err == nil; ok, err = Next()` of
the tests, from the result of the last seek or step: the observations `f`
makes at each position, and the error the loop ends with. `none` when `fuel`
steps do not finish the loop. -/
def collect {K V α : Type} [LinearOrder K] (f : ReplicaEngineDataIterator K V → α) :
    Nat → ReplicaEngineDataIterator K V × Bool × Option storage.Error →
    Option (List α × Option storage.Error)
  | 0, _ => none
  | fuel + 1, (it, ok, err) =>
    if ok && err.isNone then
      (collect f fuel it.Next).map (fun r => (f it :: r.1, r.2))
    else some ([], err)

/-- The whole traversal: `SeekStart`, then `Next` until not found. -/
def traverse {K V α : Type} [LinearOrder K] (f : ReplicaEngineDataIterator K V → α) (fuel : Nat)
    (it : ReplicaEngineDataIterator K V) : Option (List α × Option storage.Error) :=
  collect f fuel it.SeekStart

/-- A key as the tests record it: an `MVCCKey` or an `MVCCRangeKey`. -/
inductive SeenKey (K : Type) where
  | mvccKey (key : K) (ts : Nat)
  | mvccRangeKey (start finish : K) (ts : Nat)
  deriving DecidableEq, Repr

/-- The body of the loop of `verifyRDEngineIter`: the keys recorded at the
current position. -/
def seenAt {K V : Type} [LinearOrder K] (it : ReplicaEngineDataIterator K V) : List (SeenKey K) :=
  (if it.HasPointAndRange.1 then
    match it.UnsafeKey with
    | some (k, ver) => [SeenKey.mvccKey k ver]
    | none => []
  else []) ++
  (if it.HasPointAndRange.2 then
    match it.RangeBounds with
    | some b => it.RangeKeys.map (fun rk => SeenKey.mvccRangeKey b.Start b.End rk.1)
    | none => []
  else [])

/-- Modelled from the spec: the MVCC Data Iterator (§4.3): a bidirectional
cursor over point entries. It walks the KeyRanges of the selection
"Replicated", not the user-data span alone: `TestReplicaDataIterator` expects
from it every replicated point key of the range (range-ID, range-local and
user keys). The state: the read handle, the direction, the KeyRanges not yet
opened (in the order of the walk) and the cursor of the current KeyRange, if
any. -/
structure ReplicaMVCCDataIterator (K V : Type) where
  reader : Reader K V
  seekEnd : Bool
  todo : List (KeyRange K)
  cur : Option (Cursor K V)

/-- Modelled from the spec: open the cursor of the next KeyRange of the walk
and, while it is on no entry and reports no error, move on to the one after
it (the bucket mechanics of §4.2, here in either direction). -/
def mvccSeek {K V : Type} [LinearOrder K] (reader : Reader K V) (seekEnd : Bool) :
    List (KeyRange K) → Option (Cursor K V) × List (KeyRange K)
  | [] => (none, [])
  | kr :: rest =>
    let cur := reader.newCursor kr.Start kr.End IterKeyType.PointsOnly seekEnd
    match cur.valid with
    | (false, none) => mvccSeek reader seekEnd rest
    | _ => (some cur, rest)

/-- Modelled from the spec: `NewReplicaMVCCDataIterator` (§4.3); with `seekEnd`
it starts at the last key of the last KeyRange and walks the KeyRanges in
reverse. -/
def NewReplicaMVCCDataIterator {K V : Type} [LinearOrder K] (enc : KeyEncoding K)
    (desc : RangeDescriptor K) (reader : Reader K V) (seekEnd : Bool) :
    ReplicaMVCCDataIterator K V :=
  let ranges := MakeReplicatedKeyRanges enc desc
  let r := mvccSeek reader seekEnd (if seekEnd then ranges.reverse else ranges)
  { reader := reader, seekEnd := seekEnd, todo := r.2, cur := r.1 }

/-- Modelled from the spec: `Valid()` (§4.3). -/
def ReplicaMVCCDataIterator.Valid {K V : Type} (it : ReplicaMVCCDataIterator K V) :
    Bool × Option storage.Error :=
  match it.cur with
  | none => (false, none)
  | some c => c.valid

/-- Modelled from the spec: `Key()` (§4.3): key and version of the current
point entry. -/
def ReplicaMVCCDataIterator.Key {K V : Type} (it : ReplicaMVCCDataIterator K V) : Option (K × Nat) :=
  match it.cur with
  | none => none
  | some c =>
    match c.pending with
    | .point k ver _ :: _ => some (k, ver)
    | _ => none

/-- Modelled from the spec: the state after the cursor of the current KeyRange
has moved to `c1` (§4.3 with the bucket mechanics of §4.2): when `c1` is on no
entry and reports no error, the next KeyRange of the walk is opened. -/
def ReplicaMVCCDataIterator.moved {K V : Type} [LinearOrder K] (it : ReplicaMVCCDataIterator K V)
    (c1 : Cursor K V) : ReplicaMVCCDataIterator K V :=
  match c1.valid with
  | (false, none) =>
    let r := mvccSeek it.reader it.seekEnd it.todo
    { it with cur := r.1, todo := r.2 }
  | _ => { it with cur := some c1 }

/-- Modelled from the spec: `Next()` (§4.3). -/
def ReplicaMVCCDataIterator.Next {K V : Type} [LinearOrder K] (it : ReplicaMVCCDataIterator K V) :
    ReplicaMVCCDataIterator K V :=
  match it.cur with
  | none => it
  | some c => it.moved c.step

/-- Modelled from the spec: `Prev()` (§4.3). -/
def ReplicaMVCCDataIterator.Prev {K V : Type} [LinearOrder K] (it : ReplicaMVCCDataIterator K V) :
    ReplicaMVCCDataIterator K V :=
  match it.cur with
  | none => it
  | some c => it.moved c.stepBack

/-- The loop of `verifyRDReplicatedOnlyMVCCIter`: the keys in the order the
iterator visits them, stepping with `Next` (forward) or `Prev` (reverse) until
`Valid` is false; the error is what `Valid` last returned. `none` when `fuel`
steps do not finish the loop. -/
def walk {K V : Type} [LinearOrder K] (reverse : Bool) :
    Nat → ReplicaMVCCDataIterator K V → Option (List (Option (K × Nat)) × Option storage.Error)
  | 0, _ => none
  | fuel + 1, it =>
    match it.Valid with
    | (_, some err) => some ([], some err)
    | (false, none) => some ([], none)
    | (true, none) =>
      (walk reverse fuel (if reverse then it.Prev else it.Next)).map
        (fun r => (it.Key :: r.1, r.2))

/-- The point keys (key, version) among a list of entries. -/
def pointKeys {K V : Type} : List (Entry K V) → List (K × Nat)
  | [] => []
  | .point k ver _ :: rest => (k, ver) :: pointKeys rest
  | .range _ _ _ _ :: rest => pointKeys rest

/-- Whether an entry lies inside a KeyRange as a whole: a point whose key is in
`[Start, End)`, or a non-empty range entry with `Start ≤ start` and
`finish ≤ End`. -/
def Entry.within {K V : Type} [LinearOrder K] (kr : KeyRange K) : Entry K V → Bool
  | .point k _ _ => decide (kr.Start ≤ k ∧ k < kr.End)
  | .range s e _ _ => decide (kr.Start ≤ s ∧ s < e ∧ e ≤ kr.End)

/-- The key and version `Key()` reports on an entry. -/
def keyOf {K V : Type} : Entry K V → Option (K × Nat)
  | .point k ver _ => some (k, ver)
  | .range _ _ _ _ => none

/-- The states a cursor on a healthy, unwrapped handle passes through while it
steps forward over `pending`, starting with `before` behind it. -/
def cursorStates {K V : Type} : List (Entry K V) → List (Entry K V) → List (Cursor K V)
  | _, [] => []
  | b, e :: p =>
    { before := b, pending := e :: p, fault := none, declared := none } :: cursorStates (e :: b) p

/-- The positions the Engine Data Iterator visits from pass `i` on, over a
healthy, unwrapped handle: pass by pass, every entry the pass's cursor can
reach. -/
def visitedFrom {K V : Type} [LinearOrder K] (reader : Reader K V) :
    List (KeyRange K × IterKeyType) → Nat → List (Position K V)
  | [], _ => []
  | p :: rest, i =>
    (cursorStates [] (reader.inBounds p.1.Start p.1.End p.2)).map (Position.Positioned i)
      ++ visitedFrom reader rest (i + 1)

/-- The stored entries that lie inside a KeyRange as a whole, in the order in
which a walk of the KeyRange meets them: the point entries in engine order,
then the range entries in engine order. -/
def bucketEntries {K V : Type} [LinearOrder K] (entries : List (Entry K V)) (kr : KeyRange K) :
    List (Entry K V) :=
  entries.filter (fun e => e.within kr && e.isPoint)
    ++ entries.filter (fun e => e.within kr && !e.isPoint)

/-- The stored entries that lie inside the KeyRanges of a list, KeyRange by
KeyRange. -/
def rangeData {K V : Type} [LinearOrder K] (entries : List (Entry K V))
    (ranges : List (KeyRange K)) : List (Entry K V) :=
  (ranges.map (bucketEntries entries)).flatten

/-- A small key encoding over natural-number keys, for evaluating the model on
concrete inputs: range-ID metadata of range `id` in `[20 id, 20 id + 20)` (the
replicated half first), the lock table at `1000 + k`, range-local keys at
`2000 + k`, user keys `k` from 3000 on. -/
def sampleEncoding : KeyEncoding Nat :=
  { rangeID := fun id => { Start := 20 * id, End := 20 * id + 20 },
    rangeIDReplicated := fun id => { Start := 20 * id, End := 20 * id + 10 },
    rangeIDUnreplicated := fun id => { Start := 20 * id + 10, End := 20 * id + 20 },
    lockTable := fun s e => { Start := 1000 + (s - 3000), End := 1000 + (e - 3000) },
    rangeLocal := fun s e => { Start := 2000 + (s - 3000), End := 2000 + (e - 3000) } }

/-- A sample range: identity 1, user-key span `[3100, 3200)`. -/
def sampleDesc : RangeDescriptor Nat :=
  { RangeID := 1, StartKey := 3100, EndKey := 3200 }

/-- Sample engine contents after the data of `createRangeData`: for range 1 a
replicated range-ID range entry that starts below the two replicated range-ID
keys, an unreplicated range-ID range entry and two unreplicated range-ID
keys, a range-local key, a range entry over the user span and two user keys;
around them, data of the neighbouring ranges 0 and 2. -/
def sampleEntries : List (Entry Nat Unit) :=
  [Entry.point 15 0 (),
   Entry.range 21 28 1 (),
   Entry.point 22 0 (),
   Entry.point 25 0 (),
   Entry.range 31 38 1 (),
   Entry.point 32 0 (),
   Entry.point 35 0 (),
   Entry.point 45 0 (),
   Entry.point 2100 1 (),
   Entry.point 3050 1 (),
   Entry.range 3100 3200 1 (),
   Entry.point 3102 1 (),
   Entry.point 3199 1 (),
   Entry.point 3200 1 ()]

/-- Sample engine contents that belong to the neighbouring ranges 0 and 2 only. -/
def neighbourEntries : List (Entry Nat Unit) :=
  [Entry.point 15 0 (), Entry.point 45 0 (), Entry.point 3050 1 (), Entry.point 3200 1 ()]

end rditer

/-! ## Part III: `pkg/sql/colexec/colexecagg/hash_sum_agg.eg.go`

The file is generated from one template: the six sum hash aggregators have the
same fields and the same `Flush` and `Reset`, and differ in the type of the
running total (`apd.Decimal` for the three integer widths and for decimals,
`float64`, `duration.Duration`) and in the zero value `Reset` assigns. -/

namespace colexecagg

/-- The nulls of the output vector (`coldata.Nulls`), as far as `Flush` uses
them: `nullAt i` tells whether slot `i` is marked NULL. -/
structure Nulls where
  maybeHasNulls : Bool
  nullAt : Nat → Bool

/-- The method `Nulls.SetNull(i)`: slot `i` becomes NULL, no other slot changes. -/
def Nulls.SetNull (n : Nulls) (i : Nat) : Nulls :=
  { maybeHasNulls := true, nullAt := fun j => if j = i then true else n.nullAt j }

/-- The fields of a sum hash aggregator that `Flush` and `Reset` touch: `nulls`
(of the embedded `unorderedAggregateFuncBase`) and `col` are the output
vector's nulls and values, `curAgg` is the running total of type `T`,
`numNonNull` the `uint64` count of non-null values seen for the group. -/
structure sumHashAgg (T : Type) where
  nulls : Nulls
  curAgg : T
  col : List T
  numNonNull : Nat

/-- The type `sumInt16HashAgg`; `Decimal` stands for `apd.Decimal`. -/
abbrev sumInt16HashAgg (Decimal : Type) := sumHashAgg Decimal

/-- The type `sumInt32HashAgg`; `Decimal` stands for `apd.Decimal`. -/
abbrev sumInt32HashAgg (Decimal : Type) := sumHashAgg Decimal

/-- The type `sumInt64HashAgg`; `Decimal` stands for `apd.Decimal`. -/
abbrev sumInt64HashAgg (Decimal : Type) := sumHashAgg Decimal

/-- The type `sumDecimalHashAgg`; `Decimal` stands for `apd.Decimal`. -/
abbrev sumDecimalHashAgg (Decimal : Type) := sumHashAgg Decimal

/-- The type `sumFloat64HashAgg`; `Float64` stands for `float64`. -/
abbrev sumFloat64HashAgg (Float64 : Type) := sumHashAgg Float64

/-- The type `sumIntervalHashAgg`; `Duration` stands for `duration.Duration`. -/
abbrev sumIntervalHashAgg (Duration : Type) := sumHashAgg Duration

/-- The method `Flush(outputIdx)` of every sum hash aggregator. The assignment
`a.col[outputIdx] = a.curAgg` panics when the index is out of range. -/
def sumHashAgg.Flush {T : Type} (a : sumHashAgg T) (outputIdx : Nat) :
    Except String (sumHashAgg T) :=
  if a.numNonNull = 0 then
    .ok { a with nulls := a.nulls.SetNull outputIdx }
  else if outputIdx < a.col.length then
    .ok { a with col := a.col.set outputIdx a.curAgg }
  else
    .error "index out of range"

/-- The method `Reset()` of every sum hash aggregator; `zero` is the zero value
of the running total (`zeroDecimalValue`, `zeroFloat64Value` or
`zeroIntervalValue`). -/
def sumHashAgg.Reset {T : Type} (zero : T) (a : sumHashAgg T) : sumHashAgg T :=
  { a with curAgg := zero, numNonNull := 0 }

/-- A sample aggregator with integer totals: running total 42 over five output
slots, three non-null values seen, slot 4 already NULL. -/
def sampleAgg : sumHashAgg Int :=
  { nulls := { maybeHasNulls := true, nullAt := fun j => decide (j = 4) },
    curAgg := 42,
    col := [0, 0, 0, 0, 0],
    numNonNull := 3 }

end colexecagg

/-! ## Part IV: `pkg/sql/copy.go` -/

namespace sql

/-- A Go `string` or `[]byte`: its bytes, each a natural number below 256. -/
abbrev Str := List Nat

/-- The errors `copy.go` returns: `unknownEscape seq` is
`fmt.Errorf("unknown escape sequence: %q", seq)`, `wrongFieldCount e g` is
`fmt.Errorf("expected %d values, got %d", e, g)`, `external msg` is an error
returned by a callee outside the file. -/
inductive CopyError
  | unknownEscape (seq : Str)
  | wrongFieldCount (expected got : Nat)
  | external (msg : String)
  deriving DecidableEq, Repr

/-- The Go slice expression `s[lo:hi]`. -/
def slice (s : Str) (lo hi : Nat) : Str := (s.take hi).drop lo

/-- The function `decodeDigit`: the value of an octal or hex digit and whether
`c` is such a digit. -/
def decodeDigit (c : Nat) (onlyOctal : Bool) : Nat × Bool :=
  if 48 ≤ c ∧ c ≤ 55 then (c - 48, true)
  else if !onlyOctal ∧ 56 ≤ c ∧ c ≤ 57 then (c - 48, true)
  else if !onlyOctal ∧ 97 ≤ c ∧ c ≤ 102 then (c - 97 + 10, true)
  else if !onlyOctal ∧ 65 ≤ c ∧ c ≤ 70 then (c - 65 + 10, true)
  else (0, false)

/-- The function `decodeOctDigit`. -/
def decodeOctDigit (c : Nat) : Nat × Bool := decodeDigit c true

/-- The function `decodeHexDigit`. -/
def decodeHexDigit (c : Nat) : Nat × Bool := decodeDigit c false

/-- The map `decodeMap`, with 0 (the zero value of a Go map lookup) for a
missing key: `b`, `f`, `n`, `r`, `t`, `v` and the backslash. -/
def decodeMap (ch : Nat) : Nat :=
  if ch = 98 then 8
  else if ch = 102 then 12
  else if ch = 110 then 10
  else if ch = 114 then 13
  else if ch = 116 then 9
  else if ch = 118 then 11
  else if ch = 92 then 92
  else 0

/-- The loop of `decodeCopy`, one iteration per unit of `fuel`, from the loop
variable `i`, with the locals `start` and `buf`. Byte arithmetic (`digit <<=`,
`digit +=`) is modulo 256; `st1` and `st2` are the pair `(i, digit)` after
the first and the second optional digit. The loop body runs at most
`len(in) + 1` times; with no fuel left the loop stops as at the end of the
input. -/
def decodeCopyLoop (s : Str) : Nat → Nat → Nat → Str → Str × Option CopyError
  | 0, _, start, buf => (buf ++ slice s start s.length, none)
  | fuel + 1, i, start, buf =>
    let n := s.length
    if i < n then
      if s.getD i 0 ≠ 92 then
        decodeCopyLoop s fuel (i + 1) start buf
      else
        let buf := buf ++ slice s start i
        let i := i + 1
        if i ≥ n then
          ([], some (CopyError.unknownEscape (slice s (i - 1) n)))
        else
          let ch := s.getD i 0
          if decodeMap ch ≠ 0 then
            decodeCopyLoop s fuel (i + 1) (i + 1) (buf ++ [decodeMap ch])
          else if ch = 120 then
            let i := i + 1
            if i ≥ n then
              ([], some (CopyError.unknownEscape (slice s (i - 2) n)))
            else
              let ch := s.getD i 0
              if !(decodeHexDigit ch).2 then
                ([], some (CopyError.unknownEscape (slice s (i - 2) i)))
              else
                let digit := (decodeHexDigit ch).1
                let st1 :=
                  if i + 1 < n ∧ (decodeHexDigit (s.getD (i + 1) 0)).2 then
                    (i + 1, ((digit * 16) % 256 + (decodeHexDigit (s.getD (i + 1) 0)).1) % 256)
                  else (i, digit)
                decodeCopyLoop s fuel (st1.1 + 1) (st1.1 + 1) (buf ++ [st1.2])
          else if 48 ≤ ch ∧ ch ≤ 55 then
            let digit := (decodeOctDigit ch).1
            let st1 :=
              if i + 1 < n ∧ (decodeOctDigit (s.getD (i + 1) 0)).2 then
                (i + 1, ((digit * 8) % 256 + (decodeOctDigit (s.getD (i + 1) 0)).1) % 256)
              else (i, digit)
            let st2 :=
              if st1.1 + 1 < n ∧ (decodeOctDigit (s.getD (st1.1 + 1) 0)).2 then
                (st1.1 + 1,
                 ((st1.2 * 8) % 256 + (decodeOctDigit (s.getD (st1.1 + 1) 0)).1) % 256)
              else st1
            decodeCopyLoop s fuel (st2.1 + 1) (st2.1 + 1) (buf ++ [st2.2])
          else
            ([], some (CopyError.unknownEscape (slice s (i - 1) (i + 1))))
    else
      (buf ++ slice s start n, none)

/-- The function `decodeCopy`: the decoded string and the error; on an error the
string is empty. -/
def decodeCopy (s : Str) : Str × Option CopyError :=
  decodeCopyLoop s (s.length + 1) 0 0 []

/-- The result of a decoding that has already produced `out` and goes on with
the result `r` of decoding the rest: an error of the rest is the result. -/
def glue (out : Str) (r : Str × Option CopyError) : Str × Option CopyError :=
  match r.2 with
  | none => (out ++ r.1, none)
  | some e => ([], some e)

/-- What the loop of `decodeCopy` does with the characters `rest` that follow a
backslash: the byte it writes and the characters it leaves, or the error. -/
def decodeEscape : Str → Except CopyError (Nat × Str)
  | [] => .error (CopyError.unknownEscape [92])
  | ch :: r =>
    if decodeMap ch ≠ 0 then .ok (decodeMap ch, r)
    else if ch = 120 then
      match r with
      | [] => .error (CopyError.unknownEscape [92, 120])
      | h :: r1 =>
        if !(decodeHexDigit h).2 then .error (CopyError.unknownEscape [92, 120])
        else
          match r1 with
          | [] => .ok ((decodeHexDigit h).1, [])
          | h2 :: r2 =>
            if (decodeHexDigit h2).2 then
              .ok ((((decodeHexDigit h).1 * 16) % 256 + (decodeHexDigit h2).1) % 256, r2)
            else .ok ((decodeHexDigit h).1, h2 :: r2)
    else if 48 ≤ ch ∧ ch ≤ 55 then
      match r with
      | [] => .ok ((decodeOctDigit ch).1, [])
      | d2 :: r1 =>
        if (decodeOctDigit d2).2 then
          match r1 with
          | [] => .ok ((((decodeOctDigit ch).1 * 8) % 256 + (decodeOctDigit d2).1) % 256, [])
          | d3 :: r2 =>
            if (decodeOctDigit d3).2 then
              .ok ((((((decodeOctDigit ch).1 * 8) % 256 + (decodeOctDigit d2).1) % 256 * 8) % 256
                    + (decodeOctDigit d3).1) % 256, r2)
            else
              .ok ((((decodeOctDigit ch).1 * 8) % 256 + (decodeOctDigit d2).1) % 256, d3 :: r2)
        else .ok ((decodeOctDigit ch).1, d2 :: r1)
    else .error (CopyError.unknownEscape [92, ch])

/-- The loop of `decodeCopy` as a function of the characters not yet scanned,
one iteration per unit of `fuel`. -/
def decodeList : Nat → Str → Str × Option CopyError
  | 0, l => (l, none)
  | _ + 1, [] => ([], none)
  | fuel + 1, c :: rest =>
    if c ≠ 92 then glue [c] (decodeList fuel rest)
    else
      match decodeEscape rest with
      | .error e => ([], some e)
      | .ok (b, r) => glue [b] (decodeList fuel r)

/-- Whether `c` is an octal digit `0`-`7`. -/
def isOctDigit (c : Nat) : Bool := decide (48 ≤ c ∧ c ≤ 55)

/-- Whether `c` is a hex digit `0`-`9`, `a`-`f` or `A`-`F`. -/
def isHexDigit (c : Nat) : Bool :=
  decide ((48 ≤ c ∧ c ≤ 57) ∨ (97 ≤ c ∧ c ≤ 102) ∨ (65 ≤ c ∧ c ≤ 70))

/-- Whether `c` is one of the single-character escapes `b`, `f`, `n`, `r`, `t`,
`v` and the backslash. -/
def isSimpleEscape (c : Nat) : Bool :=
  decide (c = 98 ∨ c = 102 ∨ c = 110 ∨ c = 114 ∨ c = 116 ∨ c = 118 ∨ c = 92)

/-- The number of characters after a backslash that belong to its escape, as
the claim describes well-formed escapes: one for a single-character escape,
`x` and one or two hex digits (greedy), or one to three octal digits
(greedy); `none` when the backslash is the last character, is followed by
another character, or is followed by `x` without a hex digit. -/
def escapeWidth : Str → Option Nat
  | [] => none
  | ch :: r =>
    if isSimpleEscape ch then some 1
    else if ch = 120 then
      match r with
      | [] => none
      | h :: r1 =>
        if isHexDigit h then
          (if (r1.head?.map isHexDigit).getD false then some 3 else some 2)
        else none
    else if isOctDigit ch then
      some (1 + ((r.take 2).takeWhile isOctDigit).length)
    else none

/-- Scanning left to right: `skip` characters still belong to the current
escape; a backslash met with `skip = 0` starts an escape. The result tells
whether some backslash that starts an escape is malformed. -/
def hasBadEscapeFrom : Nat → Str → Bool
  | _, [] => false
  | skip + 1, _ :: rest => hasBadEscapeFrom skip rest
  | 0, c :: rest =>
    if c ≠ 92 then hasBadEscapeFrom 0 rest
    else
      match escapeWidth rest with
      | none => true
      | some w => hasBadEscapeFrom w rest

/-- Whether, scanning the whole input left to right, some backslash that starts
an escape is malformed. -/
def hasBadEscape (s : Str) : Bool := hasBadEscapeFrom 0 s

/-- The value of an octal digit character. -/
def octDigitValue (c : Nat) : Nat := c - 48

/-- The value of a hex digit character, either case. -/
def hexDigitValue (c : Nat) : Nat :=
  if c ≤ 57 then c - 48 else if 97 ≤ c then c - 87 else c - 55

/-- The octal number written by the digit characters `ds`. -/
def octalValue (ds : Str) : Nat := ds.foldl (fun acc c => acc * 8 + octDigitValue c) 0

/-- The hex number written by the digit characters `ds`. -/
def hexValue (ds : Str) : Nat := ds.foldl (fun acc c => acc * 16 + hexDigitValue c) 0

/-- The column types `addRow` tells apart: the eight it decodes with
`decodeCopy`, and any other type. -/
inductive ColType
  | Bytes | Date | Interval | INet | String | Timestamp | TimestampTZ | UUID
  | other (id : Nat)
  deriving DecidableEq, Repr

/-- The cases of the `switch` in `addRow`. -/
def ColType.decoded : ColType → Bool
  | .other _ => false
  | _ => true

/-- An expression of a row: `tree.DNull` or a parsed datum. -/
inductive Expr (D : Type)
  | DNull
  | datum (d : D)
  deriving DecidableEq, Repr

/-- A `tree.Tuple`: its `Exprs`. -/
abbrev Tuple (D : Type) := List (Expr D)

/-- What `copy.go` calls outside the file, for datums of type `D`:
`ParseStringAs` is `parser.ParseStringAs` with the machine's evaluation
context, `Size` is `Datum.Size`, `Grow used x` is the verdict of
`rowsMemAcc.Grow` on an account that holds `used` bytes, `tupleSize` is
`unsafe.Sizeof(*tuple)`, `runInsert` is planning and running the insert up to
`countRowsAffected`, and `commit` is what the cleanup function of
`preparePlanner` returns when it is passed no error. -/
structure CopyEnv (D : Type) where
  ParseStringAs : ColType → Str → Except CopyError D
  Size : D → Nat
  Grow : Int → Int → Option CopyError
  tupleSize : Nat
  runInsert : List (Tuple D) → Except CopyError Nat
  commit : Option CopyError

/-- The conversion `int64(x)` of an unsigned size. -/
def toInt64 (x : Nat) : Int := ((x : Int) + 2 ^ 63) % 2 ^ 64 - 2 ^ 63

/-- The fields of `copyMachine` that `processCopyData` reads and writes: `buf` is
the unread part of the `bytes.Buffer`, `rowsMemAcc` the bytes the account
holds. The field `addRowLines` is not in the source: it records, in order,
the lines `addRow` was called with. -/
structure copyMachine (D : Type) where
  resultColumns : List ColType
  buf : Str
  rows : List (Tuple D)
  insertedRows : Int
  rowsMemAcc : Int
  addRowLines : List Str

/-- The call `bytes.Split(line, fieldDelim)` with the tab as delimiter. -/
def splitTab : Str → List Str
  | [] => [[]]
  | c :: rest =>
    if c = 9 then [] :: splitTab rest
    else
      match splitTab rest with
      | p :: ps => (c :: p) :: ps
      | [] => [[c]]

/-- The call `rowsMemAcc.Grow(ctx, x)`: the error, or the account grown by `x`. -/
def copyMachine.grow {D : Type} (env : CopyEnv D) (c : copyMachine D) (x : Int) :
    copyMachine D × Option CopyError :=
  match env.Grow c.rowsMemAcc x with
  | some e => (c, some e)
  | none => ({ c with rowsMemAcc := c.rowsMemAcc + x }, none)

/-- The loop of `addRow` over the parts of the line, each with the type of its
column; `exprs` are the expressions made so far. -/
def addRowParts {D : Type} (env : CopyEnv D) :
    List (Str × ColType) → copyMachine D → Tuple D → copyMachine D × Except CopyError (Tuple D)
  | [], c, exprs => (c, .ok exprs)
  | (s, t) :: rest, c, exprs =>
    if s = [92, 78] then addRowParts env rest c (exprs ++ [Expr.DNull])
    else
      let dec := if t.decoded then decodeCopy s else (s, none)
      match dec.2 with
      | some e => (c, .error e)
      | none =>
        match env.ParseStringAs t dec.1 with
        | .error e => (c, .error e)
        | .ok d =>
          match c.grow env (toInt64 (env.Size d)) with
          | (c1, some e) => (c1, .error e)
          | (c1, none) => addRowParts env rest c1 (exprs ++ [Expr.datum d])

/-- The method `addRow`. -/
def copyMachine.addRow {D : Type} (env : CopyEnv D) (c : copyMachine D) (line : Str) :
    copyMachine D × Option CopyError :=
  let c := { c with addRowLines := c.addRowLines ++ [line] }
  let parts := splitTab line
  if parts.length ≠ c.resultColumns.length then
    (c, some (CopyError.wrongFieldCount c.resultColumns.length parts.length))
  else
    match addRowParts env (parts.zip c.resultColumns) c [] with
    | (c1, .error e) => (c1, some e)
    | (c1, .ok tuple) =>
      match c1.grow env (toInt64 env.tupleSize) with
      | (c2, some e) => (c2, some e)
      | (c2, none) => ({ c2 with rows := c2.rows ++ [tuple] }, none)

/-- The result of `bytes.Buffer.ReadBytes`: the bytes read, the unread rest of
the buffer, and whether the error is `io.EOF`. -/
structure ReadResult where
  line : Str
  rest : Str
  eof : Bool
  deriving DecidableEq, Repr

/-- The call `buf.ReadBytes(delim)` of the standard library: the bytes up to and
including the first `delim`, or, when there is none, all the bytes with
`io.EOF`; the bytes returned are no longer in the buffer. -/
def ReadBytes (delim : Nat) : Str → ReadResult
  | [] => { line := [], rest := [], eof := true }
  | c :: rest =>
    if c = delim then { line := [c], rest := rest, eof := false }
    else
      let r := ReadBytes delim rest
      { r with line := c :: r.line }

/-- The line `processCopyData` hands on after `ReadBytes`: with `io.EOF` the
bytes as read, otherwise without the line delimiter and without one carriage
return before it. -/
def trimLine (r : ReadResult) : Str :=
  if r.eof then r.line
  else
    let line := r.line.take (r.line.length - 1)
    if line.length > 0 ∧ line.getLast? = some 13 then line.take (line.length - 1) else line

/-- The loop of `processCopyData`, one iteration per unit of `fuel`. Every
iteration takes at least one byte out of the buffer, so `len(buf)` units are
enough; with no fuel left the loop stops as with an empty buffer. -/
def processCopyLoop {D : Type} (env : CopyEnv D) :
    Nat → copyMachine D → copyMachine D × Option CopyError
  | 0, c => (c, none)
  | fuel + 1, c =>
    if c.buf.length > 0 then
      let r := ReadBytes 10 c.buf
      let c := { c with buf := r.rest }
      let line := trimLine r
      if c.buf.length = 0 ∧ line = [92, 46] then (c, none)
      else
        match c.addRow env line with
        | (c1, some e) => (c1, some e)
        | (c1, none) => processCopyLoop env fuel c1
    else (c, none)

/-- The method `insertRows`: `Except.error` is the exit of the process by
`log.Fatalf`. -/
def copyMachine.insertRows {D : Type} (env : CopyEnv D) (c : copyMachine D) :
    Except String (copyMachine D × Option CopyError) :=
  let tuples := c.rows
  let numRows := c.rows.length
  let c := { c with rows := [], rowsMemAcc := 0 }
  match env.runInsert tuples with
  | .error e => .ok (c, some e)
  | .ok rows =>
    if rows ≠ numRows then
      .error "didn't insert all buffered rows and yet no error was reported."
    else
      .ok ({ c with insertedRows := storage.wrapInt64 (c.insertedRows + rows) }, env.commit)

/-- The method `processCopyData`. -/
def copyMachine.processCopyData {D : Type} (env : CopyEnv D) (c : copyMachine D)
    (data : Str) (final : Bool) : Except String (copyMachine D × Option CopyError) :=
  let c := { c with buf := c.buf ++ data }
  match processCopyLoop env c.buf.length c with
  | (c1, some e) => .ok (c1, some e)
  | (c1, none) =>
    let ln := c1.rows.length
    if ln = 0 ∨ (ln < 100 ∧ !final) then .ok (c1, none)
    else c1.insertRows env

/-- The `CopyData` messages `msgs` processed in order, as `run` does with
`final = false`, up to the first error. -/
def feed {D : Type} (env : CopyEnv D) : List Str → copyMachine D →
    Except String (copyMachine D × Option CopyError)
  | [], c => .ok (c, none)
  | data :: rest, c =>
    match c.processCopyData env data false with
    | .error f => .error f
    | .ok (c1, some e) => .ok (c1, some e)
    | .ok (c1, none) => feed env rest c1

/-- An environment for examples: datums are strings, every string parses as
itself, a datum has the size of its length, the account never refuses, and an
insert affects all its rows and commits. -/
def sampleCopyEnv : CopyEnv Str :=
  { ParseStringAs := fun _ s => .ok s
    Size := fun d => d.length
    Grow := fun _ _ => none
    tupleSize := 24
    runInsert := fun rows => .ok rows.length
    commit := none }

/-- A fresh machine for a table with one `String` column. -/
def sampleMachine : copyMachine Str :=
  { resultColumns := [ColType.String]
    buf := []
    rows := []
    insertedRows := 0
    rowsMemAcc := 0
    addRowLines := [] }

end sql

/-! ## Theorems about `pkg/storage/sst_writer.go` -/

namespace storage

/-- C6: on a writer that does not support range keys, `PutMVCCRangeKey` returns
the error "range keys not supported by SST writer" for every range key and
value, issues no call on the underlying sstable writer and leaves the writer
(`DataSize` included) unchanged. -/
theorem PutMVCCRangeKey_unsupported {V : Type} (env : Env V) (fw : SSTWriter)
    (rangeKey : MVCCRangeKey) (value : V) (h : fw.supportsRangeKeys = false) :
    SSTWriter.PutMVCCRangeKey env fw rangeKey value
      = Except.ok { fw := fw, err := some "range keys not supported by SST writer", issued := [] } := by
  simp [SSTWriter.PutMVCCRangeKey, h]

/-- Witness for C6: the writer made for a cluster with no version gate active
does not support range keys and rejects a range tombstone over `[a, b)`. -/
theorem PutMVCCRangeKey_unsupported_witness :
    oldFormatWriter.supportsRangeKeys = false ∧
    SSTWriter.PutMVCCRangeKey plainEnv oldFormatWriter
        { StartKey := [97], EndKey := [98], Timestamp := { WallTime := 1, Logical := 0 } } []
      = Except.ok { fw := oldFormatWriter,
                    err := some "range keys not supported by SST writer", issued := [] } :=
  ⟨by decide, PutMVCCRangeKey_unsupported plainEnv oldFormatWriter _ _ (by decide)⟩

/-- C7, the code at the failing input: on the open writer made for a cluster
with no version gate active (`supportsRangeKeys = false`, `DataSize = 0`),
`PutEngineRangeKey("a", "b", [1], [])` does not test `supportsRangeKeys`: in
every environment it raises `DataSize` to 2, forwards a `RangeKeySet` to the
underlying writer and returns whatever that writer returns. -/
theorem PutEngineRangeKey_unsupported_eval {V : Type} (env : Env V) :
    oldFormatWriter.supportsRangeKeys = false ∧
    oldFormatWriter.DataSize = 0 ∧
    ∃ r sw, oldFormatWriter.fw = some sw ∧
      SSTWriter.PutEngineRangeKey env oldFormatWriter [97] [98] [1] [] = Except.ok r ∧
      r.issued = [WriterOp.RangeKeySet (env.EngineKeyEncode { Key := [97], Version := [] })
                    (env.EngineKeyEncode { Key := [98], Version := [] }) [1] []] ∧
      r.fw.DataSize = 2 ∧
      r.err = env.writerErr sw
        (WriterOp.RangeKeySet (env.EngineKeyEncode { Key := [97], Version := [] })
          (env.EngineKeyEncode { Key := [98], Version := [] }) [1] []) := by
  refine ⟨by decide, by decide, _, _, rfl, rfl, rfl, ?_, rfl⟩
  show wrapInt64 (oldFormatWriter.DataSize + (len64 [97] + len64 [98] + len64 [])) = 2
  decide

/-- C8: on a writer that does not support range keys, `ClearMVCCRangeKey` and
`ClearAllRangeKeys` return nil for every argument (valid or not), issue no
call on the underlying writer and leave every field of the writer unchanged. -/
theorem ClearRangeKeys_unsupported_noop {V : Type} (env : Env V) (fw : SSTWriter)
    (h : fw.supportsRangeKeys = false) :
    (∀ rangeKey : MVCCRangeKey,
      SSTWriter.ClearMVCCRangeKey env fw rangeKey
        = Except.ok { fw := fw, err := none, issued := [] }) ∧
    (∀ start finish : Bytes,
      SSTWriter.ClearAllRangeKeys env fw start finish
        = Except.ok { fw := fw, err := none, issued := [] }) := by
  constructor <;> intros <;> simp [SSTWriter.ClearMVCCRangeKey, SSTWriter.ClearAllRangeKeys, h]

/-- Witness for C8: an environment whose validator rejects every range key, and
the inverted range key `[b, a)` with an empty timestamp. -/
theorem ClearRangeKeys_unsupported_noop_witness :
    oldFormatWriter.supportsRangeKeys = false ∧
    SSTWriter.ClearMVCCRangeKey { plainEnv with Validate := fun _ => some "invalid range key" }
        oldFormatWriter
        { StartKey := [98], EndKey := [97], Timestamp := { WallTime := 0, Logical := 0 } }
      = Except.ok { fw := oldFormatWriter, err := none, issued := [] } ∧
    SSTWriter.ClearAllRangeKeys { plainEnv with Validate := fun _ => some "invalid range key" }
        oldFormatWriter [98] [97]
      = Except.ok { fw := oldFormatWriter, err := none, issued := [] } :=
  ⟨by decide,
   (ClearRangeKeys_unsupported_noop _ oldFormatWriter (by decide)).1 _,
   (ClearRangeKeys_unsupported_noop _ oldFormatWriter (by decide)).2 _ _⟩

/-- C9 as stated fails: with both version gates active the writer made by
`MakeIngestionSSTWriter` uses table format Pebblev2, not RocksDBv2. -/
theorem MakeIngestionSSTWriter_not_always_RocksDBv2 :
    (MakeIngestionSSTWriter plainEnv { IsActive := fun _ => true } 0).fw.map
        (fun w => w.opts.TableFormat) = some TableFormat.Pebblev2 ∧
    (MakeIngestionSSTWriter plainEnv { IsActive := fun _ => true } 0).fw.map
        (fun w => w.opts.TableFormat) ≠ some TableFormat.RocksDBv2 := by
  constructor <;> decide

/-- C9 amended: when the default options carry the requested table format, then
for every cluster settings value the writer made by `MakeIngestionSSTWriter`
is open and its table format is Pebblev2 when the range-keys gate is active,
else Pebblev1 when the block-properties gate is active, else RocksDBv2; in
every case the filter policy is the one of `DefaultPebbleOptions` for that
format, and range keys are supported exactly for Pebblev2. -/
theorem MakeIngestionSSTWriter_format {V : Type} (env : Env V) (cs : Settings) (f : Nat)
    (hfmt : ∀ format, (env.MakeWriterOptions format).TableFormat = format) :
    ∃ w, (MakeIngestionSSTWriter env cs f).fw = some w ∧
      w.opts.TableFormat =
        (if cs.IsActive VersionKey.EnablePebbleFormatVersionRangeKeys then TableFormat.Pebblev2
         else if cs.IsActive VersionKey.EnablePebbleFormatVersionBlockProperties
           then TableFormat.Pebblev1
         else TableFormat.RocksDBv2) ∧
      w.opts.FilterPolicy = (env.MakeWriterOptions w.opts.TableFormat).FilterPolicy ∧
      ((MakeIngestionSSTWriter env cs f).supportsRangeKeys = true ↔
        w.opts.TableFormat = TableFormat.Pebblev2) := by
  have hopts : (MakeIngestionWriterOptions env cs).TableFormat =
      (if cs.IsActive VersionKey.EnablePebbleFormatVersionRangeKeys then TableFormat.Pebblev2
       else if cs.IsActive VersionKey.EnablePebbleFormatVersionBlockProperties
         then TableFormat.Pebblev1
       else TableFormat.RocksDBv2) := by
    simp only [MakeIngestionWriterOptions]
    split_ifs <;> simp [hfmt]
  have hfilter : (MakeIngestionWriterOptions env cs).FilterPolicy =
      (env.MakeWriterOptions (MakeIngestionWriterOptions env cs).TableFormat).FilterPolicy := by
    rw [hopts]
    simp only [MakeIngestionWriterOptions]
    split_ifs <;> rfl
  refine ⟨NewWriter (MakeIngestionWriterOptions env cs), rfl, hopts, hfilter, ?_⟩
  simp only [MakeIngestionSSTWriter, NewWriter, hopts]
  split_ifs <;> simp [TableFormat.toNat]

/-- Witness for C9 amended: with only the block-properties gate active the
writer uses Pebblev1, keeps the bloom filter policy and does not support range
keys. -/
theorem MakeIngestionSSTWriter_format_witness :
    ∃ w, (MakeIngestionSSTWriter plainEnv
        { IsActive := fun k => decide (k = VersionKey.EnablePebbleFormatVersionBlockProperties) }
        0).fw = some w ∧
      w.opts.TableFormat = TableFormat.Pebblev1 ∧
      w.opts.FilterPolicy = some "bloom" ∧
      ((MakeIngestionSSTWriter plainEnv
        { IsActive := fun k => decide (k = VersionKey.EnablePebbleFormatVersionBlockProperties) }
        0).supportsRangeKeys = true ↔ w.opts.TableFormat = TableFormat.Pebblev2) := by
  obtain ⟨w, h1, h2, h3, h4⟩ := MakeIngestionSSTWriter_format plainEnv
    { IsActive := fun k => decide (k = VersionKey.EnablePebbleFormatVersionBlockProperties) }
    0 (fun _ => rfl)
  refine ⟨w, h1, ?_, ?_, h4⟩
  · rw [h2]; decide
  · rw [h3, h2]; decide

/-- C10: `Close` is idempotent: a second `Close` returns the state the first one
left, issues no call on the underlying writer, and `Close` after a successful
`Finish` changes no field and issues no call. -/
theorem Close_idempotent {V : Type} (env : Env V) (w : SSTWriter) :
    (SSTWriter.Close env (SSTWriter.Close env w).fw).fw = (SSTWriter.Close env w).fw ∧
    (SSTWriter.Close env (SSTWriter.Close env w).fw).issued = [] ∧
    ((SSTWriter.Finish env w).err = none →
      SSTWriter.Close env (SSTWriter.Finish env w).fw
        = { fw := (SSTWriter.Finish env w).fw, err := none, issued := [] }) := by
  refine ⟨?_, ?_, ?_⟩
  · cases hw : w.fw <;> simp [SSTWriter.Close, hw]
  · cases hw : w.fw <;> simp [SSTWriter.Close, hw]
  · cases hw : w.fw with
    | none => simp [SSTWriter.Finish, hw]
    | some sw =>
      cases he : env.writerErr sw WriterOp.Close <;> simp [SSTWriter.Finish, SSTWriter.Close, hw, he]

/-- Witness for C10: `Finish` succeeds on the open writer made for a cluster
with no version gate active, and the `Close` that follows is a no-op. -/
theorem Close_idempotent_witness :
    (SSTWriter.Finish plainEnv oldFormatWriter).err = none ∧
    SSTWriter.Close plainEnv (SSTWriter.Finish plainEnv oldFormatWriter).fw
      = { fw := (SSTWriter.Finish plainEnv oldFormatWriter).fw, err := none, issued := [] } :=
  ⟨by decide, (Close_idempotent plainEnv oldFormatWriter).2.2 (by decide)⟩

end storage

/-! ## Theorems about `Finish`, the point-key methods and `DataSize` -/

namespace storage

/-- C11: `Finish` returns an error exactly when the writer is already closed or
the underlying `Close` fails. On a closed writer the error is "cannot call
Finish on a closed writer"; a successful `Finish` closes the writer, so the
next `Finish` returns that error; a failing underlying `Close` is returned
verbatim and leaves `fw` set, so a later `Close` calls the underlying `Close`
again. -/
theorem Finish_error_iff {V : Type} (env : Env V) (w : SSTWriter) :
    ((SSTWriter.Finish env w).err ≠ none ↔
      (w.fw = none ∨ ∃ sw, w.fw = some sw ∧ env.writerErr sw WriterOp.Close ≠ none)) ∧
    (w.fw = none →
      (SSTWriter.Finish env w).err = some "cannot call Finish on a closed writer") ∧
    ((SSTWriter.Finish env w).err = none →
      (SSTWriter.Finish env w).fw.fw = none ∧
      ∀ env2 : Env V, (SSTWriter.Finish env2 (SSTWriter.Finish env w).fw).err
        = some "cannot call Finish on a closed writer") ∧
    (∀ sw e, w.fw = some sw → env.writerErr sw WriterOp.Close = some e →
      (SSTWriter.Finish env w).err = some e ∧
      (SSTWriter.Finish env w).fw.fw = some { sw with calls := sw.calls ++ [WriterOp.Close] } ∧
      (SSTWriter.Close env (SSTWriter.Finish env w).fw).issued = [WriterOp.Close]) := by
  refine ⟨?_, ?_, ?_, ?_⟩
  · cases hw : w.fw with
    | none => simp [SSTWriter.Finish, hw]
    | some sw => cases he : env.writerErr sw WriterOp.Close <;> simp [SSTWriter.Finish, hw, he]
  · intro hw
    simp [SSTWriter.Finish, hw]
  · cases hw : w.fw with
    | none => simp [SSTWriter.Finish, hw]
    | some sw => cases he : env.writerErr sw WriterOp.Close <;> simp [SSTWriter.Finish, hw, he]
  · intro sw e hw he
    simp [SSTWriter.Finish, SSTWriter.Close, hw, he]

/-- Witness for C11: `Finish` on a closed writer; a successful `Finish` on the
open writer of `plainEnv` followed by a second `Finish`; and a `Finish` whose
underlying `Close` fails with "write failed", followed by `Close`. -/
theorem Finish_error_iff_witness :
    (SSTWriter.Finish plainEnv { oldFormatWriter with fw := none }).err
      = some "cannot call Finish on a closed writer" ∧
    ((SSTWriter.Finish plainEnv oldFormatWriter).fw.fw = none ∧
      ∀ env2 : Env Bytes, (SSTWriter.Finish env2 (SSTWriter.Finish plainEnv oldFormatWriter).fw).err
        = some "cannot call Finish on a closed writer") ∧
    ((SSTWriter.Finish failingCloseEnv oldFormatWriter).err = some "write failed" ∧
      (SSTWriter.Finish failingCloseEnv oldFormatWriter).fw.fw
        = some { opts := MakeIngestionWriterOptions plainEnv { IsActive := fun _ => false },
                 calls := [WriterOp.Close] } ∧
      (SSTWriter.Close failingCloseEnv (SSTWriter.Finish failingCloseEnv oldFormatWriter).fw).issued
        = [WriterOp.Close]) :=
  ⟨(Finish_error_iff plainEnv { oldFormatWriter with fw := none }).2.1 rfl,
   (Finish_error_iff plainEnv oldFormatWriter).2.2.1 (by decide),
   (Finish_error_iff failingCloseEnv oldFormatWriter).2.2.2 _ _ rfl rfl⟩

/-- C12: on a closed writer (`fw.fw` is nil) every point-key operation returns a
non-nil error, issues no call and leaves the writer (`DataSize` and `scratch`
included) unchanged. The error is the operation's "closed writer" error; for
`PutMVCC` it is that error whenever the value encodes (an encoding failure is
returned instead). `PutMVCC`, `PutRawMVCC` and `ClearMVCC` are taken with a
non-empty timestamp. -/
theorem closed_writer_point_ops {V : Type} (env : Env V) (fw : SSTWriter) (h : fw.fw = none) :
    (∀ key value, SSTWriter.Put env fw key value
      = Except.ok { fw := fw, err := some "cannot call Put on a closed writer", issued := [] }) ∧
    (∀ key value, env.IsEmpty key.Timestamp = false →
      ∃ e, SSTWriter.PutMVCC env fw key value
          = Except.ok { fw := fw, err := some e, issued := [] } ∧
        ∀ enc, env.EncodeMVCCValue value = Except.ok enc →
          e = "cannot call Put on a closed writer") ∧
    (∀ key value, env.IsEmpty key.Timestamp = false →
      SSTWriter.PutRawMVCC env fw key value
        = Except.ok { fw := fw, err := some "cannot call Put on a closed writer", issued := [] }) ∧
    (∀ key value, SSTWriter.PutUnversioned env fw key value
      = Except.ok { fw := fw, err := some "cannot call Put on a closed writer", issued := [] }) ∧
    (∀ key value txnUUID, SSTWriter.PutIntent env fw key value txnUUID
      = Except.ok { fw := fw, err := some "cannot call Put on a closed writer", issued := [] }) ∧
    (∀ key value, SSTWriter.PutEngineKey env fw key value
      = Except.ok { fw := fw, err := some "cannot call Put on a closed writer", issued := [] }) ∧
    (∀ key value, SSTWriter.Merge env fw key value
      = Except.ok { fw := fw, err := some "cannot call Merge on a closed writer", issued := [] }) ∧
    (∀ key, env.IsEmpty key.Timestamp = false →
      SSTWriter.ClearMVCC env fw key
        = Except.ok { fw := fw, err := some "cannot call Clear on a closed writer", issued := [] }) ∧
    (∀ key, SSTWriter.ClearUnversioned env fw key
      = Except.ok { fw := fw, err := some "cannot call Clear on a closed writer", issued := [] }) ∧
    (∀ key, SSTWriter.ClearEngineKey env fw key
      = Except.ok { fw := fw, err := some "cannot call Clear on a closed writer", issued := [] }) ∧
    (∀ start finish, SSTWriter.ClearMVCCVersions env fw start finish
      = Except.ok { fw := fw, err := some "cannot call ClearRange on a closed writer",
                    issued := [] }) ∧
    (∀ start finish, SSTWriter.ClearRawRange env fw start finish
      = Except.ok { fw := fw, err := some "cannot call ClearRange on a closed writer",
                    issued := [] }) := by
  refine ⟨?_, ?_, ?_, ?_, ?_, ?_, ?_, ?_, ?_, ?_, ?_, ?_⟩
  · intro key value; simp [SSTWriter.Put, h]
  · intro key value hts
    cases henc : env.EncodeMVCCValue value with
    | error err =>
      exact ⟨err, by simp [SSTWriter.PutMVCC, hts, henc], by intro enc h1; cases h1⟩
    | ok enc =>
      exact ⟨_, by simp [SSTWriter.PutMVCC, hts, henc, SSTWriter.put, h], fun _ _ => rfl⟩
  · intro key value hts; simp [SSTWriter.PutRawMVCC, hts, SSTWriter.put, h]
  · intro key value; simp [SSTWriter.PutUnversioned, SSTWriter.put, h]
  · intro key value txnUUID; simp [SSTWriter.PutIntent, SSTWriter.put, h]
  · intro key value; simp [SSTWriter.PutEngineKey, h]
  · intro key value; simp [SSTWriter.Merge, h]
  · intro key hts; simp [SSTWriter.ClearMVCC, hts, SSTWriter.clear, h]
  · intro key; simp [SSTWriter.ClearUnversioned, SSTWriter.clear, h]
  · intro key; simp [SSTWriter.ClearEngineKey, h]
  · intro start finish; simp [SSTWriter.ClearMVCCVersions, SSTWriter.clearRange, h]
  · intro start finish; simp [SSTWriter.ClearRawRange, SSTWriter.clearRange, h]

/-- Witness for C12: the writer closed by `Close`, with `Put`, `PutMVCC` (key
with wall time 1, a value that encodes) and `ClearRawRange`. -/
theorem closed_writer_point_ops_witness :
    (SSTWriter.Close plainEnv oldFormatWriter).fw.fw = none ∧
    SSTWriter.Put plainEnv (SSTWriter.Close plainEnv oldFormatWriter).fw
        { Key := [97], Timestamp := { WallTime := 1, Logical := 0 } } [1]
      = Except.ok { fw := (SSTWriter.Close plainEnv oldFormatWriter).fw,
                    err := some "cannot call Put on a closed writer", issued := [] } ∧
    (∃ e, SSTWriter.PutMVCC plainEnv (SSTWriter.Close plainEnv oldFormatWriter).fw
          { Key := [97], Timestamp := { WallTime := 1, Logical := 0 } } [1]
        = Except.ok { fw := (SSTWriter.Close plainEnv oldFormatWriter).fw, err := some e,
                      issued := [] } ∧
      ∀ enc, plainEnv.EncodeMVCCValue [1] = Except.ok enc →
        e = "cannot call Put on a closed writer") ∧
    SSTWriter.ClearRawRange plainEnv (SSTWriter.Close plainEnv oldFormatWriter).fw [97] [98]
      = Except.ok { fw := (SSTWriter.Close plainEnv oldFormatWriter).fw,
                    err := some "cannot call ClearRange on a closed writer", issued := [] } :=
  ⟨rfl,
   (closed_writer_point_ops plainEnv (SSTWriter.Close plainEnv oldFormatWriter).fw rfl).1 _ _,
   (closed_writer_point_ops plainEnv (SSTWriter.Close plainEnv oldFormatWriter).fw rfl).2.1
     { Key := [97], Timestamp := { WallTime := 1, Logical := 0 } } [1] rfl,
   (closed_writer_point_ops plainEnv
     (SSTWriter.Close plainEnv oldFormatWriter).fw rfl).2.2.2.2.2.2.2.2.2.2.2 _ _⟩

/-- Wrapping twice is wrapping once: `int64` addition is addition modulo `2^64`. -/
theorem wrapInt64_add (a b : Int) : wrapInt64 (wrapInt64 a + b) = wrapInt64 (a + b) := by
  unfold wrapInt64
  norm_num
  omega

/-- An `int64` value is not changed by wrapping. -/
theorem wrapInt64_of_range (a : Int) (h : -2 ^ 63 ≤ a ∧ a < 2 ^ 63) : wrapInt64 a = a := by
  unfold wrapInt64
  norm_num at h ⊢
  omega

/-- On an open writer every admissible call returns (without a panic), leaves the
writer open and has added its entry's bytes to `DataSize`, whatever the
underlying writer answered. -/
theorem AddCall.run_open {V : Type} (env : Env V) (fw : SSTWriter) (sw : SstableWriter)
    (hopen : fw.fw = some sw) (c : AddCall) (hc : c.admissible env = true) :
    ∃ r, c.run env fw = Except.ok r ∧
      r.fw.DataSize = wrapInt64 (fw.DataSize + c.bytes) ∧
      ∃ sw1, r.fw.fw = some sw1 := by
  cases c with
  | Put key value =>
    simp [AddCall.run, AddCall.bytes, SSTWriter.Put, hopen, callWriter]
  | PutUnversioned key value =>
    simp [AddCall.run, AddCall.bytes, SSTWriter.PutUnversioned, SSTWriter.put, hopen, callWriter]
  | PutRawMVCC key value =>
    have hts : env.IsEmpty key.Timestamp = false := by simpa [AddCall.admissible] using hc
    simp [AddCall.run, AddCall.bytes, SSTWriter.PutRawMVCC, hts, SSTWriter.put, hopen,
      callWriter]
  | PutEngineKey key value =>
    simp [AddCall.run, AddCall.bytes, SSTWriter.PutEngineKey, hopen, callWriter]
  | Merge key value =>
    simp [AddCall.run, AddCall.bytes, SSTWriter.Merge, hopen, callWriter]

/-- C13 as stated fails: on the fresh writer, with an underlying writer that
rejects a key that sorts below an earlier one, `Put(b, [1])` returns nil and
the following `Put(a, [2])` (keys in decreasing order) returns an error, yet
`DataSize` is 4, while the bytes of the calls that returned nil sum to 2. -/
theorem DataSize_counts_rejected_entries :
    ∃ fw1 errs,
      runCalls strictEnv oldFormatWriter
          [AddCall.Put { Key := [98], Timestamp := { WallTime := 1, Logical := 0 } } [1],
           AddCall.Put { Key := [97], Timestamp := { WallTime := 1, Logical := 0 } } [2]]
        = Except.ok (fw1, errs) ∧
      errs = [none, some "pebble: keys must be added in order"] ∧
      fw1.DataSize = 4 ∧
      bytesOfAccepted
          [AddCall.Put { Key := [98], Timestamp := { WallTime := 1, Logical := 0 } } [1],
           AddCall.Put { Key := [97], Timestamp := { WallTime := 1, Logical := 0 } } [2]]
          errs = 2 ∧
      fw1.DataSize ≠ bytesOfAccepted
          [AddCall.Put { Key := [98], Timestamp := { WallTime := 1, Logical := 0 } } [1],
           AddCall.Put { Key := [97], Timestamp := { WallTime := 1, Logical := 0 } } [2]]
          errs := by
  refine ⟨_, _, rfl, ?_, ?_, ?_, ?_⟩ <;> decide

/-- C13 amended: for every sequence of `Put` / `PutUnversioned` / `PutRawMVCC`
(non-empty timestamp) / `PutEngineKey` / `Merge` calls on an open writer, the
run returns, the writer stays open and `DataSize` has grown by the sum of
`len(key.Key) + len(value)` over all calls of the sequence (in `int64`
arithmetic), whether the underlying writer returned nil or an error. -/
theorem DataSize_counts_every_call {V : Type} (env : Env V) (calls : List AddCall) :
    ∀ (fw : SSTWriter) (sw : SstableWriter), fw.fw = some sw →
      (-2 ^ 63 ≤ fw.DataSize ∧ fw.DataSize < 2 ^ 63) →
      (∀ c ∈ calls, c.admissible env = true) →
      ∃ fw1 errs, runCalls env fw calls = Except.ok (fw1, errs) ∧
        errs.length = calls.length ∧
        fw1.DataSize = wrapInt64 (fw.DataSize + (calls.map AddCall.bytes).sum) ∧
        ∃ sw1, fw1.fw = some sw1 := by
  induction calls with
  | nil =>
    intro fw sw hopen hrange _
    refine ⟨fw, [], rfl, rfl, ?_, sw, hopen⟩
    simp [wrapInt64_of_range _ hrange]
  | cons c rest ih =>
    intro fw sw hopen _ hadm
    obtain ⟨r, hr, hsize, sw1, hopen1⟩ :=
      AddCall.run_open env fw sw hopen c (hadm c (List.mem_cons_self _ _))
    have hrange1 : -2 ^ 63 ≤ r.fw.DataSize ∧ r.fw.DataSize < 2 ^ 63 := by
      rw [hsize]
      unfold wrapInt64
      norm_num
      omega
    obtain ⟨fw2, errs, hrun, hlen, hsize2, hopen2⟩ :=
      ih r.fw sw1 hopen1 hrange1 (fun x hx => hadm x (List.mem_cons_of_mem _ hx))
    refine ⟨fw2, r.err :: errs, ?_, ?_, ?_, hopen2⟩
    · simp [runCalls, hr, hrun]
    · simp [hlen]
    · rw [hsize2, hsize, wrapInt64_add]
      simp [Int.add_assoc]

/-- Witness for C13 amended: the two `Put` calls of the counterexample on the
fresh writer: the run returns and `DataSize` is 4, the bytes of both calls. -/
theorem DataSize_counts_every_call_witness :
    ∃ fw1 errs,
      runCalls strictEnv oldFormatWriter
          [AddCall.Put { Key := [98], Timestamp := { WallTime := 1, Logical := 0 } } [1],
           AddCall.Put { Key := [97], Timestamp := { WallTime := 1, Logical := 0 } } [2]]
        = Except.ok (fw1, errs) ∧
      errs.length = 2 ∧
      fw1.DataSize = 4 ∧
      ∃ sw1, fw1.fw = some sw1 := by
  obtain ⟨fw1, errs, h1, h2, h3, h4⟩ := DataSize_counts_every_call strictEnv
    [AddCall.Put { Key := [98], Timestamp := { WallTime := 1, Logical := 0 } } [1],
     AddCall.Put { Key := [97], Timestamp := { WallTime := 1, Logical := 0 } } [2]]
    oldFormatWriter _ rfl (by decide) (by decide)
  exact ⟨fw1, errs, h1, h2, by rw [h3]; decide, h4⟩

end storage

/-! ## Theorems about the range-data iterators -/

namespace rditer

/-- On a healthy, unwrapped handle a cursor is valid exactly when it stands on
an entry. -/
theorem valid_plain {K V : Type} (b p : List (Entry K V)) :
    Cursor.valid ({ before := b, pending := p, fault := none, declared := none } : Cursor K V)
      = (!p.isEmpty, none) := by
  cases p <;> simp [Cursor.valid, Cursor.permits]

/-- The KeyRange of a pass is a KeyRange of the list. -/
theorem mem_of_mem_passes {K : Type} (ranges : List (KeyRange K)) (p : KeyRange K × IterKeyType)
    (h : p ∈ passes ranges) : p.1 ∈ ranges := by
  induction ranges with
  | nil => simp [passes] at h
  | cons kr rest ih =>
    simp only [passes, List.mem_cons] at h
    rcases h with rfl | rfl | h
    · simp
    · simp
    · exact List.mem_cons_of_mem _ (ih h)

section traversal

variable {K V : Type} [LinearOrder K]

/-- Dropping one more element than a drop that starts with `kr`. -/
theorem drop_succ_of_drop_cons {α : Type} (l : List α) (j : Nat) (x : α) (rest : List α)
    (h : l.drop j = x :: rest) : l.drop (j + 1) = rest := by
  have h1 : l.drop (j + 1) = (l.drop j).drop 1 := by
    rw [List.drop_drop, Nat.add_comm]
  rw [h1, h]; rfl

/-- The element a drop starts with is the element at that index. -/
theorem get?_of_drop_cons {α : Type} (l : List α) (j : Nat) (x : α) (rest : List α)
    (h : l.drop j = x :: rest) : l[j]? = some x := by
  have h1 : (l.drop j)[0]? = l[j]? := by
    rw [List.getElem?_drop]; simp
  rw [← h1, h]; simp

/-- Walking the rest of a pass: from a position on `e :: p` the loop records
every remaining cursor state of the pass, then whatever the walk over the
later passes records. -/
theorem collect_bucket {α : Type} (f : ReplicaEngineDataIterator K V → α)
    (reader : Reader K V) (ranges : List (KeyRange K)) (i : Nat)
    (tailRes : List α) (n0 : Nat)
    (hrest : ∀ fuel, n0 < fuel →
      collect f fuel
        ({ reader := reader, ranges := ranges,
           pos := (seekBuckets reader ((passes ranges).drop (i + 1)) (i + 1)).1 },
         (seekBuckets reader ((passes ranges).drop (i + 1)) (i + 1)).2.1,
         (seekBuckets reader ((passes ranges).drop (i + 1)) (i + 1)).2.2) = some (tailRes, none))
    (p : List (Entry K V)) :
    ∀ (b : List (Entry K V)) (e : Entry K V) (fuel : Nat), p.length + 1 + n0 < fuel →
      collect f fuel
        ({ reader := reader, ranges := ranges,
           pos := Position.Positioned i
             { before := b, pending := e :: p, fault := none, declared := none } },
         true, none)
      = some ((cursorStates b (e :: p)).map
                (fun c => f { reader := reader, ranges := ranges, pos := Position.Positioned i c })
              ++ tailRes, none) := by
  induction p with
  | nil =>
    intro b e fuel hfuel
    obtain ⟨n, rfl⟩ : ∃ n, fuel = n + 1 := ⟨fuel - 1, by omega⟩
    have hn : n0 < n := by simp at hfuel; omega
    simp [collect, ReplicaEngineDataIterator.Next, Cursor.step, valid_plain, hrest n hn,
      cursorStates]
  | cons e1 p1 ih =>
    intro b e fuel hfuel
    obtain ⟨n, rfl⟩ : ∃ n, fuel = n + 1 := ⟨fuel - 1, by omega⟩
    have hn : p1.length + 1 + n0 < n := by simp at hfuel; omega
    have := ih (e :: b) e1 n hn
    simp [collect, ReplicaEngineDataIterator.Next, Cursor.step, valid_plain, this, cursorStates]

/-- From a seek over the passes `rest` (the passes from index `j` on) the loop
records exactly the positions of `visitedFrom`, and ends without error. -/
theorem collect_seek {α : Type} (f : ReplicaEngineDataIterator K V → α)
    (reader : Reader K V) (hf : reader.fault = none) (hd : reader.declared = none)
    (ranges : List (KeyRange K)) (rest : List (KeyRange K × IterKeyType)) :
    ∀ (j : Nat), (passes ranges).drop j = rest → ∀ (fuel : Nat),
      (visitedFrom reader rest j).length < fuel →
      collect f fuel
        ({ reader := reader, ranges := ranges, pos := (seekBuckets reader rest j).1 },
         (seekBuckets reader rest j).2.1, (seekBuckets reader rest j).2.2)
      = some ((visitedFrom reader rest j).map
                (fun q => f { reader := reader, ranges := ranges, pos := q }), none) := by
  induction rest with
  | nil =>
    intro j _ fuel hfuel
    obtain ⟨n, rfl⟩ : ∃ n, fuel = n + 1 := ⟨fuel - 1, by simp [visitedFrom] at hfuel; omega⟩
    simp [seekBuckets, collect, visitedFrom]
  | cons kr rest1 ih =>
    intro j hdrop fuel hfuel
    have hdrop1 : (passes ranges).drop (j + 1) = rest1 :=
      drop_succ_of_drop_cons (passes ranges) j kr rest1 hdrop
    cases hitems : reader.inBounds kr.1.Start kr.1.End kr.2 with
    | nil =>
      have hlen : (visitedFrom reader rest1 (j + 1)).length < fuel := by
        simpa [visitedFrom, hitems, cursorStates] using hfuel
      have := ih (j + 1) hdrop1 fuel hlen
      simpa [seekBuckets, Reader.newCursor, hitems, hf, hd, valid_plain, visitedFrom,
        cursorStates] using this
    | cons e p =>
      have hlen : p.length + 1 + (visitedFrom reader rest1 (j + 1)).length < fuel := by
        have : (cursorStates ([] : List (Entry K V)) (e :: p)).length = p.length + 1 := by
          have key : ∀ (q b : List (Entry K V)), (cursorStates b q).length = q.length := by
            intro q; induction q with
            | nil => intro b; rfl
            | cons x q ihq => intro b; simp [cursorStates, ihq]
          simpa using key (e :: p) []
        simp [visitedFrom, hitems, this] at hfuel
        omega
      have hrest : ∀ fuel, (visitedFrom reader rest1 (j + 1)).length < fuel →
          collect f fuel
            ({ reader := reader, ranges := ranges,
               pos := (seekBuckets reader ((passes ranges).drop (j + 1)) (j + 1)).1 },
             (seekBuckets reader ((passes ranges).drop (j + 1)) (j + 1)).2.1,
             (seekBuckets reader ((passes ranges).drop (j + 1)) (j + 1)).2.2)
          = some ((visitedFrom reader rest1 (j + 1)).map
                    (fun q => f { reader := reader, ranges := ranges, pos := q }), none) := by
        intro fuel1 h1
        rw [hdrop1]
        exact ih (j + 1) hdrop1 fuel1 h1
      have := collect_bucket f reader ranges j _ _ hrest p [] e fuel hlen
      simpa [seekBuckets, Reader.newCursor, hitems, hf, hd, valid_plain, visitedFrom,
        List.map_append, Function.comp] using this

/-- Closed form of the traversal over a healthy, unwrapped handle: given enough
fuel the loop ends without error and has recorded `f` at every position of
`visitedFrom`, in order. -/
theorem traverse_eq {α : Type} (f : ReplicaEngineDataIterator K V → α)
    (reader : Reader K V) (hf : reader.fault = none) (hd : reader.declared = none)
    (ranges : List (KeyRange K)) (pos : Position K V) (fuel : Nat)
    (hfuel : (visitedFrom reader (passes ranges) 0).length < fuel) :
    traverse f fuel { reader := reader, ranges := ranges, pos := pos }
      = some ((visitedFrom reader (passes ranges) 0).map
                (fun q => f { reader := reader, ranges := ranges, pos := q }), none) := by
  have := collect_seek f reader hf hd ranges (passes ranges) 0 rfl fuel hfuel
  simpa [traverse, ReplicaEngineDataIterator.SeekStart] using this

/-- Over an engine that holds one range entry `[lo, hi)` and buckets that are
non-empty and inside `[lo, hi)`, the iterator visits one position per bucket
and `RangeBounds` reports the bucket itself there. -/
theorem visited_global (lo hi : K) (ver : Nat) (payload : V) (ranges : List (KeyRange K))
    (h : ∀ kr ∈ ranges, lo ≤ kr.Start ∧ kr.Start < kr.End ∧ kr.End ≤ hi)
    (rest : List (KeyRange K)) :
    ∀ (j : Nat), (passes ranges).drop j = passes rest →
      (visitedFrom (Reader.plain [Entry.range lo hi ver payload]) (passes rest) j).map
        (fun q => ReplicaEngineDataIterator.RangeBounds
          { reader := Reader.plain [Entry.range lo hi ver payload], ranges := ranges, pos := q })
        = rest.map some ∧
      (visitedFrom (Reader.plain [Entry.range lo hi ver payload]) (passes rest) j).length
        = rest.length := by
  induction rest with
  | nil => intro j _; simp [visitedFrom, passes]
  | cons kr rest1 ih =>
    intro j hdrop
    simp only [passes] at hdrop
    have hdrop1 := drop_succ_of_drop_cons (passes ranges) j _ _ hdrop
    have hdrop2 := drop_succ_of_drop_cons (passes ranges) (j + 1) _ _ hdrop1
    have hmem : kr ∈ ranges := by
      apply mem_of_mem_passes ranges (kr, IterKeyType.PointsOnly)
      apply List.mem_of_mem_drop
      rw [hdrop]; exact List.mem_cons_self _ _
    obtain ⟨h1, h2, h3⟩ := h kr hmem
    have hget := get?_of_drop_cons (passes ranges) (j + 1) _ _ hdrop1
    obtain ⟨ih1, ih2⟩ := ih (j + 1 + 1) hdrop2
    have hvis : (Entry.range lo hi ver payload : Entry K V).visible kr.Start kr.End = true := by
      simp only [Entry.visible, decide_eq_true_eq]
      rw [max_eq_right h1, min_eq_right h3]; exact h2
    have hinP : (Reader.plain [Entry.range lo hi ver payload]).inBounds kr.Start kr.End
        IterKeyType.PointsOnly = [] := by
      simp [Reader.inBounds, Reader.plain, IterKeyType.shows, Entry.isPoint]
    have hinR : (Reader.plain [Entry.range lo hi ver payload]).inBounds kr.Start kr.End
        IterKeyType.RangesOnly = [Entry.range lo hi ver payload] := by
      simp [Reader.inBounds, Reader.plain, hvis, IterKeyType.shows, Entry.isPoint]
    have hrb : ReplicaEngineDataIterator.RangeBounds
        { reader := Reader.plain [Entry.range lo hi ver payload], ranges := ranges,
          pos := Position.Positioned (j + 1)
            { before := [], pending := [Entry.range lo hi ver payload], fault := none,
              declared := none } } = some kr := by
      simp [ReplicaEngineDataIterator.RangeBounds, ReplicaEngineDataIterator.current, hget,
        max_eq_right h1, min_eq_right h3]
    constructor
    · simp only [passes, visitedFrom, hinP, hinR, cursorStates, List.map_append, List.map_cons,
        List.map_nil, hrb, ih1, List.singleton_append, List.nil_append]
    · simp only [passes, visitedFrom, hinP, hinR, cursorStates, List.length_append,
        List.length_map, List.length_cons, List.length_nil, ih2]
      omega

/-- Over an engine that holds one range entry `[lo, hi)`, the traversal of any
list of non-empty buckets inside `[lo, hi)` reports the buckets themselves. -/
theorem traverse_global (lo hi : K) (ver : Nat) (payload : V) (ranges : List (KeyRange K))
    (h : ∀ kr ∈ ranges, lo ≤ kr.Start ∧ kr.Start < kr.End ∧ kr.End ≤ hi)
    (fuel : Nat) (hfuel : ranges.length < fuel) :
    traverse ReplicaEngineDataIterator.RangeBounds fuel
        { reader := Reader.plain [Entry.range lo hi ver payload], ranges := ranges,
          pos := Position.Closed }
      = some (ranges.map some, none) := by
  obtain ⟨hmap, hlen⟩ := visited_global lo hi ver payload ranges h ranges 0 rfl
  have := traverse_eq ReplicaEngineDataIterator.RangeBounds
    (Reader.plain [Entry.range lo hi ver payload]) rfl rfl ranges Position.Closed fuel
    (by rw [hlen]; exact hfuel)
  rw [hmap] at this
  exact this

end traversal

/-- C2: when the engine holds a single range entry `[lo, hi)` spanning the whole
keyspace (every KeyRange of the list that drives the iterator is non-empty and
inside `[lo, hi)`), then for both values of `replicatedOnly` the traversal
`SeekStart`, `Next`, ... ends without error and the `RangeBounds` it reports
are exactly the KeyRange list that drives the iterator
(`MakeReplicatedKeyRanges` resp. `MakeAllKeyRanges`), one fragment per
KeyRange, equal to that KeyRange. -/
theorem engineIter_global_range_fragments {K V : Type} [LinearOrder K]
    (enc : KeyEncoding K) (desc : RangeDescriptor K) (replicatedOnly : Bool)
    (lo hi : K) (ver : Nat) (payload : V)
    (h : ∀ kr ∈ (if replicatedOnly then MakeReplicatedKeyRanges enc desc
                 else MakeAllKeyRanges enc desc),
      lo ≤ kr.Start ∧ kr.Start < kr.End ∧ kr.End ≤ hi)
    (fuel : Nat) (hfuel : 5 < fuel) :
    traverse ReplicaEngineDataIterator.RangeBounds fuel
        (NewReplicaEngineDataIterator enc desc (Reader.plain [Entry.range lo hi ver payload])
          replicatedOnly)
      = some ((if replicatedOnly then MakeReplicatedKeyRanges enc desc
               else MakeAllKeyRanges enc desc).map some, none) := by
  cases replicatedOnly with
  | false =>
    exact traverse_global lo hi ver payload _ h fuel
      (by simp [MakeAllKeyRanges]; omega)
  | true =>
    exact traverse_global lo hi ver payload _ h fuel
      (by simp [MakeReplicatedKeyRanges]; omega)

/-- Witness for C2: the sample range over an engine whose only entry is the
range entry `[0, 5000)`, replicated-only mode: three fragments, one per
KeyRange. -/
theorem engineIter_global_range_fragments_witness :
    traverse ReplicaEngineDataIterator.RangeBounds 6
        (NewReplicaEngineDataIterator sampleEncoding sampleDesc
          (Reader.plain [Entry.range 0 5000 1 ()]) true)
      = some ([some { Start := 20, End := 30 }, some { Start := 2100, End := 2200 },
               some { Start := 3100, End := 3200 }], none) :=
  engineIter_global_range_fragments sampleEncoding sampleDesc true 0 5000 1 () (by decide) 6
    (by decide)

section empty

variable {K V : Type} [LinearOrder K]

/-- A seek over passes none of which shows an entry finds nothing and reports
no error, whatever read set is declared. -/
theorem seekBuckets_empty (reader : Reader K V) (hf : reader.fault = none)
    (ps : List (KeyRange K × IterKeyType))
    (h : ∀ p ∈ ps, reader.inBounds p.1.Start p.1.End p.2 = []) :
    ∀ j : Nat, seekBuckets reader ps j = (Position.Exhausted, false, none) := by
  induction ps with
  | nil => intro j; rfl
  | cons p rest ih =>
    intro j
    have h1 := h p (List.mem_cons_self _ _)
    have h2 := ih (fun p1 hk => h p1 (List.mem_cons_of_mem _ hk)) (j + 1)
    simp [seekBuckets, Reader.newCursor, h1, hf, Cursor.valid, h2]

/-- A seek of the MVCC Data Iterator over KeyRanges none of which shows a point
entry finds nothing, in either direction and whatever read set is declared. -/
theorem mvccSeek_empty (reader : Reader K V) (hf : reader.fault = none) (seekEnd : Bool)
    (ranges : List (KeyRange K))
    (h : ∀ kr ∈ ranges, reader.inBounds kr.Start kr.End IterKeyType.PointsOnly = []) :
    mvccSeek reader seekEnd ranges = (none, []) := by
  induction ranges with
  | nil => rfl
  | cons kr rest ih =>
    have h1 := h kr (List.mem_cons_self _ _)
    have h2 := ih (fun kr1 hk => h kr1 (List.mem_cons_of_mem _ hk))
    cases seekEnd <;> simp [mvccSeek, Reader.newCursor, h1, hf, Cursor.valid, h2]

/-- No entry visible in the bounds means the cursor reaches nothing. -/
theorem inBounds_empty (reader : Reader K V) (lower upper : K) (kt : IterKeyType)
    (h : ∀ e ∈ reader.entries, e.visible lower upper = false) :
    reader.inBounds lower upper kt = [] := by
  simp only [Reader.inBounds, List.filter_eq_nil_iff]
  intro e he
  simp [h e he]

end empty

/-- C4: over an engine that is healthy and holds no entry visible in any
KeyRange of the range, of either selection (nothing was ever written for it),
with or without a declared read set: `SeekStart` of the Engine Data Iterator
returns found = false and no error for both values of `replicatedOnly`,
`Valid` of the MVCC Data Iterator returns (false, nil) for both values of
`seekEnd`, and both test loops end with zero entries. -/
theorem empty_range_iterators {K V : Type} [LinearOrder K]
    (enc : KeyEncoding K) (desc : RangeDescriptor K) (reader : Reader K V)
    (hf : reader.fault = none)
    (hempty : ∀ kr ∈ MakeAllKeyRanges enc desc ++ MakeReplicatedKeyRanges enc desc,
      ∀ e ∈ reader.entries, e.visible kr.Start kr.End = false) :
    (∀ replicatedOnly : Bool,
      (NewReplicaEngineDataIterator enc desc reader replicatedOnly).SeekStart.2 = (false, none) ∧
      ∀ fuel : Nat, 0 < fuel →
        traverse seenAt fuel (NewReplicaEngineDataIterator enc desc reader replicatedOnly)
          = some ([], none)) ∧
    (∀ seekEnd : Bool,
      (NewReplicaMVCCDataIterator enc desc reader seekEnd).Valid = (false, none) ∧
      ∀ fuel : Nat, 0 < fuel →
        walk seekEnd fuel (NewReplicaMVCCDataIterator enc desc reader seekEnd)
          = some ([], none)) := by
  have hall : ∀ kr ∈ MakeAllKeyRanges enc desc ++ MakeReplicatedKeyRanges enc desc, ∀ kt,
      reader.inBounds kr.Start kr.End kt = [] :=
    fun kr hkr kt => inBounds_empty reader _ _ kt (hempty kr hkr)
  constructor
  · intro replicatedOnly
    have hseek : seekBuckets (NewReplicaEngineDataIterator enc desc reader replicatedOnly).reader
        (passes (NewReplicaEngineDataIterator enc desc reader replicatedOnly).ranges) 0
        = (Position.Exhausted, false, none) := by
      refine seekBuckets_empty reader hf _ ?_ 0
      intro p hp
      apply hall
      have hp1 := mem_of_mem_passes _ p hp
      cases replicatedOnly <;>
        simp only [NewReplicaEngineDataIterator, Bool.false_eq_true, ↓reduceIte] at hp1 <;>
        simp [hp1]
    constructor
    · simp [ReplicaEngineDataIterator.SeekStart, hseek]
    · intro fuel hfuel
      obtain ⟨n, rfl⟩ : ∃ n, fuel = n + 1 := ⟨fuel - 1, by omega⟩
      simp [traverse, ReplicaEngineDataIterator.SeekStart, hseek, collect]
  · intro seekEnd
    have hseek : mvccSeek reader seekEnd
        (if seekEnd then (MakeReplicatedKeyRanges enc desc).reverse
         else MakeReplicatedKeyRanges enc desc) = (none, []) := by
      refine mvccSeek_empty reader hf seekEnd _ ?_
      intro kr hkr
      apply hall
      cases seekEnd <;> simp at hkr <;> simp [hkr]
    have hvalid : (NewReplicaMVCCDataIterator enc desc reader seekEnd).Valid = (false, none) := by
      simp [NewReplicaMVCCDataIterator, ReplicaMVCCDataIterator.Valid, hseek]
    refine ⟨hvalid, ?_⟩
    intro fuel hfuel
    obtain ⟨n, rfl⟩ : ∃ n, fuel = n + 1 := ⟨fuel - 1, by omega⟩
    simp [walk, hvalid]

/-- Witness for C4: the sample range over an engine that holds data of the
neighbouring ranges only, wrapped by a read set that permits nothing:
replicated-only `SeekStart` and reverse `Valid` find nothing, without error. -/
theorem empty_range_iterators_witness :
    (NewReplicaEngineDataIterator sampleEncoding sampleDesc
        { entries := neighbourEntries, fault := none, declared := some (fun _ _ => false) }
        true).SeekStart.2 = (false, none) ∧
    traverse seenAt 1 (NewReplicaEngineDataIterator sampleEncoding sampleDesc
        { entries := neighbourEntries, fault := none, declared := some (fun _ _ => false) }
        true) = some ([], none) ∧
    (NewReplicaMVCCDataIterator sampleEncoding sampleDesc
        { entries := neighbourEntries, fault := none, declared := some (fun _ _ => false) }
        true).Valid = (false, none) ∧
    walk true 1 (NewReplicaMVCCDataIterator sampleEncoding sampleDesc
        { entries := neighbourEntries, fault := none, declared := some (fun _ _ => false) }
        true) = some ([], none) :=
  ⟨((empty_range_iterators sampleEncoding sampleDesc
      { entries := neighbourEntries, fault := none, declared := some (fun _ _ => false) }
      rfl (by decide)).1 true).1,
   ((empty_range_iterators sampleEncoding sampleDesc
      { entries := neighbourEntries, fault := none, declared := some (fun _ _ => false) }
      rfl (by decide)).1 true).2 1 (by decide),
   ((empty_range_iterators sampleEncoding sampleDesc
      { entries := neighbourEntries, fault := none, declared := some (fun _ _ => false) }
      rfl (by decide)).2 true).1,
   ((empty_range_iterators sampleEncoding sampleDesc
      { entries := neighbourEntries, fault := none, declared := some (fun _ _ => false) }
      rfl (by decide)).2 true).2 1 (by decide)⟩

end rditer
namespace rditer

section mvcc

variable {K V : Type} [LinearOrder K]

/-- The state of the MVCC Data Iterator after a seek over `todo`. -/
theorem NewReplicaMVCCDataIterator_eq (enc : KeyEncoding K) (desc : RangeDescriptor K)
    (reader : Reader K V) (seekEnd : Bool) :
    NewReplicaMVCCDataIterator enc desc reader seekEnd
      = { reader := reader, seekEnd := seekEnd,
          todo := (mvccSeek reader seekEnd
            (if seekEnd then (MakeReplicatedKeyRanges enc desc).reverse
             else MakeReplicatedKeyRanges enc desc)).2,
          cur := (mvccSeek reader seekEnd
            (if seekEnd then (MakeReplicatedKeyRanges enc desc).reverse
             else MakeReplicatedKeyRanges enc desc)).1 } := rfl

/-- Forward walk inside a KeyRange: from a cursor on `e :: p` the loop visits
the pending entries in order, then whatever the walk from the next seek
visits. -/
theorem walk_forward (reader : Reader K V)
    (todo : List (KeyRange K)) (tailRes : List (Option (K × Nat))) (n0 : Nat)
    (hrest : ∀ fuel, n0 < fuel →
      walk false fuel
        { reader := reader, seekEnd := false, todo := (mvccSeek reader false todo).2,
          cur := (mvccSeek reader false todo).1 } = some (tailRes, none))
    (p : List (Entry K V)) :
    ∀ (b : List (Entry K V)) (e : Entry K V) (fuel : Nat), p.length + 1 + n0 < fuel →
      (∀ x ∈ e :: p, Cursor.permits
        ({ before := [], pending := [], fault := none, declared := reader.declared } :
          Cursor K V) x = true) →
      walk false fuel
        { reader := reader, seekEnd := false, todo := todo,
          cur := some { before := b, pending := e :: p, fault := none,
                        declared := reader.declared } }
        = some ((e :: p).map keyOf ++ tailRes, none) := by
  induction p with
  | nil =>
    intro b e fuel hfuel hperm
    obtain ⟨n, rfl⟩ : ∃ n, fuel = n + 1 := ⟨fuel - 1, by omega⟩
    have hn : n0 < n := by simp at hfuel; omega
    have he : Cursor.permits
        ({ before := b, pending := [e], fault := none, declared := reader.declared } :
          Cursor K V) e = true := hperm e (List.mem_cons_self _ _)
    have hk : ReplicaMVCCDataIterator.Key
        { reader := reader, seekEnd := false, todo := todo,
          cur := some { before := b, pending := [e], fault := none,
                        declared := reader.declared } } = keyOf e := by
      cases e <;> rfl
    simp [walk, ReplicaMVCCDataIterator.Valid, Cursor.valid, he, ReplicaMVCCDataIterator.Next,
      ReplicaMVCCDataIterator.moved, Cursor.step, hrest n hn, hk]
  | cons e1 p1 ih =>
    intro b e fuel hfuel hperm
    obtain ⟨n, rfl⟩ : ∃ n, fuel = n + 1 := ⟨fuel - 1, by omega⟩
    have hn : p1.length + 1 + n0 < n := by simp at hfuel; omega
    have he : Cursor.permits
        ({ before := b, pending := e :: e1 :: p1, fault := none,
           declared := reader.declared } : Cursor K V) e = true :=
      hperm e (List.mem_cons_self _ _)
    have he1 : Cursor.permits
        ({ before := e :: b, pending := e1 :: p1, fault := none,
           declared := reader.declared } : Cursor K V) e1 = true :=
      hperm e1 (by simp)
    have := ih (e :: b) e1 n hn (fun x hx => hperm x (List.mem_cons_of_mem _ hx))
    have hk : ReplicaMVCCDataIterator.Key
        { reader := reader, seekEnd := false, todo := todo,
          cur := some { before := b, pending := e :: e1 :: p1, fault := none,
                        declared := reader.declared } } = keyOf e := by
      cases e <;> rfl
    simp [walk, ReplicaMVCCDataIterator.Valid, Cursor.valid, he, he1,
      ReplicaMVCCDataIterator.Next, ReplicaMVCCDataIterator.moved, Cursor.step, this, hk]

/-- Reverse walk inside a KeyRange: from a cursor standing on `e` with `b`
behind it, the loop visits `e` and the entries behind it, nearest first, then
whatever the walk from the next seek visits. -/
theorem walk_reverse (reader : Reader K V)
    (todo : List (KeyRange K)) (tailRes : List (Option (K × Nat))) (n0 : Nat)
    (hrest : ∀ fuel, n0 < fuel →
      walk true fuel
        { reader := reader, seekEnd := true, todo := (mvccSeek reader true todo).2,
          cur := (mvccSeek reader true todo).1 } = some (tailRes, none))
    (b : List (Entry K V)) :
    ∀ (e : Entry K V) (p : List (Entry K V)) (fuel : Nat), b.length + 1 + n0 < fuel →
      (∀ x ∈ e :: b, Cursor.permits
        ({ before := [], pending := [], fault := none, declared := reader.declared } :
          Cursor K V) x = true) →
      walk true fuel
        { reader := reader, seekEnd := true, todo := todo,
          cur := some { before := b, pending := e :: p, fault := none,
                        declared := reader.declared } }
        = some ((e :: b).map keyOf ++ tailRes, none) := by
  induction b with
  | nil =>
    intro e p fuel hfuel hperm
    obtain ⟨n, rfl⟩ : ∃ n, fuel = n + 1 := ⟨fuel - 1, by omega⟩
    have hn : n0 < n := by simp at hfuel; omega
    have he : Cursor.permits
        ({ before := [], pending := e :: p, fault := none, declared := reader.declared } :
          Cursor K V) e = true := hperm e (List.mem_cons_self _ _)
    have hk : ReplicaMVCCDataIterator.Key
        { reader := reader, seekEnd := true, todo := todo,
          cur := some { before := [], pending := e :: p, fault := none,
                        declared := reader.declared } } = keyOf e := by
      cases e <;> rfl
    simp [walk, ReplicaMVCCDataIterator.Valid, Cursor.valid, he, ReplicaMVCCDataIterator.Prev,
      ReplicaMVCCDataIterator.moved, Cursor.stepBack, hrest n hn, hk]
  | cons x b ih =>
    intro e p fuel hfuel hperm
    obtain ⟨n, rfl⟩ : ∃ n, fuel = n + 1 := ⟨fuel - 1, by omega⟩
    have hn : b.length + 1 + n0 < n := by simp at hfuel; omega
    have he : Cursor.permits
        ({ before := x :: b, pending := e :: p, fault := none,
           declared := reader.declared } : Cursor K V) e = true :=
      hperm e (List.mem_cons_self _ _)
    have hx : Cursor.permits
        ({ before := b, pending := x :: e :: p, fault := none,
           declared := reader.declared } : Cursor K V) x = true :=
      hperm x (by simp)
    have := ih x (e :: p) n hn (fun y hy => hperm y (List.mem_cons_of_mem _ hy))
    have hk : ReplicaMVCCDataIterator.Key
        { reader := reader, seekEnd := true, todo := todo,
          cur := some { before := x :: b, pending := e :: p, fault := none,
                        declared := reader.declared } } = keyOf e := by
      cases e <;> rfl
    simp [walk, ReplicaMVCCDataIterator.Valid, Cursor.valid, he, hx,
      ReplicaMVCCDataIterator.Prev, ReplicaMVCCDataIterator.moved, Cursor.stepBack, this, hk]

/-- Forward walk from a seek: the loop visits, KeyRange by KeyRange, the point
entries each KeyRange shows, in engine order. -/
theorem walk_seek_forward (reader : Reader K V) (hf : reader.fault = none)
    (todo : List (KeyRange K)) :
    (∀ kr ∈ todo, ∀ x ∈ reader.inBounds kr.Start kr.End IterKeyType.PointsOnly,
      Cursor.permits
        ({ before := [], pending := [], fault := none, declared := reader.declared } :
          Cursor K V) x = true) →
    ∀ fuel,
      ((todo.map (fun kr => reader.inBounds kr.Start kr.End IterKeyType.PointsOnly)).flatten).length
        < fuel →
      walk false fuel
        { reader := reader, seekEnd := false, todo := (mvccSeek reader false todo).2,
          cur := (mvccSeek reader false todo).1 }
      = some (((todo.map (fun kr =>
          reader.inBounds kr.Start kr.End IterKeyType.PointsOnly)).flatten).map keyOf, none) := by
  induction todo with
  | nil =>
    intro _ fuel hfuel
    obtain ⟨n, rfl⟩ : ∃ n, fuel = n + 1 := ⟨fuel - 1, by simp at hfuel; omega⟩
    simp [mvccSeek, walk, ReplicaMVCCDataIterator.Valid]
  | cons kr rest ih =>
    intro hperm fuel hfuel
    have ih1 := ih (fun kr1 hk => hperm kr1 (List.mem_cons_of_mem _ hk))
    cases hitems : reader.inBounds kr.Start kr.End IterKeyType.PointsOnly with
    | nil =>
      have hseek : mvccSeek reader false (kr :: rest) = mvccSeek reader false rest := by
        simp [mvccSeek, Reader.newCursor, hitems, hf, Cursor.valid]
      rw [hseek]
      simp only [List.map_cons, hitems, List.flatten_cons, List.nil_append] at hfuel ⊢
      exact ih1 fuel hfuel
    | cons e p =>
      have hpe := hperm kr (List.mem_cons_self _ _)
      rw [hitems] at hpe
      have he : Cursor.permits
          ({ before := [], pending := e :: p, fault := none, declared := reader.declared } :
            Cursor K V) e = true := hpe e (List.mem_cons_self _ _)
      have hseek : mvccSeek reader false (kr :: rest)
          = (some { before := [], pending := e :: p, fault := none,
                    declared := reader.declared }, rest) := by
        simp [mvccSeek, Reader.newCursor, hitems, hf, Cursor.valid, he]
      rw [hseek]
      simp only [List.map_cons, hitems, List.flatten_cons, List.length_append,
        List.length_cons, List.map_append] at hfuel ⊢
      exact walk_forward reader rest _ _ ih1 p [] e fuel (by omega) hpe

/-- Reverse walk from a seek: the loop visits, KeyRange by KeyRange in the order
of `todo`, the point entries each KeyRange shows, last first. -/
theorem walk_seek_reverse (reader : Reader K V) (hf : reader.fault = none)
    (todo : List (KeyRange K)) :
    (∀ kr ∈ todo, ∀ x ∈ reader.inBounds kr.Start kr.End IterKeyType.PointsOnly,
      Cursor.permits
        ({ before := [], pending := [], fault := none, declared := reader.declared } :
          Cursor K V) x = true) →
    ∀ fuel,
      ((todo.map (fun kr =>
          (reader.inBounds kr.Start kr.End IterKeyType.PointsOnly).reverse)).flatten).length
        < fuel →
      walk true fuel
        { reader := reader, seekEnd := true, todo := (mvccSeek reader true todo).2,
          cur := (mvccSeek reader true todo).1 }
      = some (((todo.map (fun kr =>
          (reader.inBounds kr.Start kr.End IterKeyType.PointsOnly).reverse)).flatten).map keyOf,
          none) := by
  induction todo with
  | nil =>
    intro _ fuel hfuel
    obtain ⟨n, rfl⟩ : ∃ n, fuel = n + 1 := ⟨fuel - 1, by simp at hfuel; omega⟩
    simp [mvccSeek, walk, ReplicaMVCCDataIterator.Valid]
  | cons kr rest ih =>
    intro hperm fuel hfuel
    have ih1 := ih (fun kr1 hk => hperm kr1 (List.mem_cons_of_mem _ hk))
    cases hrev : (reader.inBounds kr.Start kr.End IterKeyType.PointsOnly).reverse with
    | nil =>
      have hseek : mvccSeek reader true (kr :: rest) = mvccSeek reader true rest := by
        simp [mvccSeek, Reader.newCursor, hrev, hf, Cursor.valid]
      rw [hseek]
      simp only [List.map_cons, hrev, List.flatten_cons, List.nil_append] at hfuel ⊢
      exact ih1 fuel hfuel
    | cons last front =>
      have hpe : ∀ x ∈ last :: front, Cursor.permits
          ({ before := [], pending := [], fault := none, declared := reader.declared } :
            Cursor K V) x = true := by
        intro x hx
        apply hperm kr (List.mem_cons_self _ _)
        rw [← hrev] at hx
        exact List.mem_reverse.mp hx
      have he : Cursor.permits
          ({ before := front, pending := [last], fault := none, declared := reader.declared } :
            Cursor K V) last = true := hpe last (List.mem_cons_self _ _)
      have hseek : mvccSeek reader true (kr :: rest)
          = (some { before := front, pending := [last], fault := none,
                    declared := reader.declared }, rest) := by
        simp [mvccSeek, Reader.newCursor, hrev, hf, Cursor.valid, he]
      rw [hseek]
      simp only [List.map_cons, hrev, List.flatten_cons, List.length_append,
        List.length_cons, List.map_append] at hfuel ⊢
      exact walk_reverse reader rest _ _ ih1 front last [] fuel (by omega) hpe

/-- Walking a list of lists backwards, each of them backwards, is walking the
whole backwards. -/
theorem flatten_reverse_map_reverse {α β : Type} (f : α → List β) (l : List α) :
    (l.reverse.map (fun x => (f x).reverse)).flatten = ((l.map f).flatten).reverse := by
  induction l with
  | nil => rfl
  | cons a l ih =>
    simp only [List.reverse_cons, List.map_append, List.map_cons, List.map_nil,
      List.flatten_append, List.flatten_cons, List.flatten_nil, List.append_nil, ih,
      List.reverse_append]

/-- The point keys of a concatenation. -/
theorem pointKeys_append {K V : Type} (a b : List (Entry K V)) :
    pointKeys (a ++ b) = pointKeys a ++ pointKeys b := by
  induction a with
  | nil => rfl
  | cons e a ih => cases e <;> simp [pointKeys, ih]

/-- On point entries `Key()` reports exactly the point keys. -/
theorem map_keyOf_points {K V : Type} (l : List (Entry K V)) (h : ∀ e ∈ l, e.isPoint = true) :
    l.map keyOf = (pointKeys l).map some := by
  induction l with
  | nil => rfl
  | cons e l ih =>
    have ih1 := ih (fun x hx => h x (List.mem_cons_of_mem _ hx))
    cases e with
    | point k ver v => simp [keyOf, pointKeys, ih1]
    | range s f ver v => simpa [Entry.isPoint] using h _ (List.mem_cons_self _ _)

/-- Range entries have no point keys. -/
theorem pointKeys_of_ranges {K V : Type} (l : List (Entry K V))
    (h : ∀ e ∈ l, e.isPoint = false) : pointKeys l = [] := by
  induction l with
  | nil => rfl
  | cons e l ih =>
    have ih1 := ih (fun x hx => h x (List.mem_cons_of_mem _ hx))
    cases e with
    | point k ver v => simpa [Entry.isPoint] using h _ (List.mem_cons_self _ _)
    | range s f ver v => simpa [pointKeys] using ih1

/-- For a point entry, being shown by a cursor over a KeyRange is lying inside
the KeyRange. -/
theorem visible_eq_within_of_point (kr : KeyRange K) (e : Entry K V) (h : e.isPoint = true) :
    e.visible kr.Start kr.End = e.within kr := by
  cases e with
  | point k ver v => simp [Entry.visible, Entry.within]
  | range s f ver v => simp [Entry.isPoint] at h

/-- The point entries a cursor over a KeyRange shows are the point entries of the
KeyRange's data. -/
theorem inBounds_points (reader : Reader K V) (kr : KeyRange K) :
    reader.inBounds kr.Start kr.End IterKeyType.PointsOnly
      = reader.entries.filter (fun e => e.within kr && e.isPoint) := by
  simp only [Reader.inBounds, IterKeyType.shows]
  apply List.filter_congr
  intro e _
  cases hp : e.isPoint with
  | false => simp
  | true => simp [visible_eq_within_of_point kr e hp]

/-- What `Key()` reports over the point entries a cursor over a KeyRange shows:
the point keys of the KeyRange's data. -/
theorem keyOf_inBounds (reader : Reader K V) (kr : KeyRange K) :
    (reader.inBounds kr.Start kr.End IterKeyType.PointsOnly).map keyOf
      = (pointKeys (bucketEntries reader.entries kr)).map some := by
  rw [inBounds_points, bucketEntries, pointKeys_append,
    pointKeys_of_ranges (reader.entries.filter (fun e => e.within kr && !e.isPoint)),
    List.append_nil]
  · apply map_keyOf_points
    intro e he
    have := (List.mem_filter.mp he).2
    simp only [Bool.and_eq_true] at this
    exact this.2
  · intro e he
    have := (List.mem_filter.mp he).2
    simp only [Bool.and_eq_true, Bool.not_eq_eq_eq_not, Bool.not_true] at this
    exact this.2

/-- What `Key()` reports over the point entries the cursors over a KeyRange list
show: the point keys of the data of the KeyRanges. -/
theorem keyOf_flatten_inBounds (reader : Reader K V) (ranges : List (KeyRange K)) :
    ((ranges.map (fun kr =>
        reader.inBounds kr.Start kr.End IterKeyType.PointsOnly)).flatten).map keyOf
      = (pointKeys (rangeData reader.entries ranges)).map some := by
  induction ranges with
  | nil => rfl
  | cons kr rest ih =>
    simp only [List.map_cons, List.flatten_cons, List.map_append, ih, keyOf_inBounds,
      rangeData, pointKeys_append]

end mvcc

/-- C5: over a healthy handle whose declared read set (if any) covers the
replicated KeyRanges of the range, the MVCC Data Iterator visits, in forward
mode, exactly the replicated point keys of the range (the point keys of the
stored entries inside the KeyRanges of `MakeReplicatedKeyRanges`: range-ID,
range-local and user keys), KeyRange by KeyRange in engine (key) order, and in
reverse mode (`seekEnd`, stepping with `Prev`) exactly the reverse of that
sequence; both loops end without error. -/
theorem mvccIter_reverse_symmetry {K V : Type} [LinearOrder K]
    (enc : KeyEncoding K) (desc : RangeDescriptor K) (reader : Reader K V)
    (hf : reader.fault = none)
    (hd : ∀ ok, reader.declared = some ok → ∀ kr ∈ MakeReplicatedKeyRanges enc desc,
      ∀ k ver, kr.Start ≤ k → k < kr.End → ok k ver = true)
    (fuel : Nat) (hfuel : 3 * reader.entries.length < fuel) :
    walk false fuel (NewReplicaMVCCDataIterator enc desc reader false)
      = some ((pointKeys (rangeData reader.entries (MakeReplicatedKeyRanges enc desc))).map some,
          none) ∧
    walk true fuel (NewReplicaMVCCDataIterator enc desc reader true)
      = some (((pointKeys (rangeData reader.entries
          (MakeReplicatedKeyRanges enc desc))).map some).reverse, none) := by
  have hperm : ∀ kr ∈ MakeReplicatedKeyRanges enc desc,
      ∀ x ∈ reader.inBounds kr.Start kr.End IterKeyType.PointsOnly,
      Cursor.permits
        ({ before := [], pending := [], fault := none, declared := reader.declared } :
          Cursor K V) x = true := by
    intro kr hkr x hx
    rw [inBounds_points, List.mem_filter, Bool.and_eq_true] at hx
    cases hdecl : reader.declared with
    | none => simp [Cursor.permits]
    | some ok =>
      cases x with
      | point k ver v =>
        have hv : kr.Start ≤ k ∧ k < kr.End := by
          simpa [Entry.within] using hx.2.1
        simpa [Cursor.permits] using hd ok hdecl kr hkr k ver hv.1 hv.2
      | range s f ver v => simp [Entry.isPoint] at hx
  have hlen : ((MakeReplicatedKeyRanges enc desc).map (fun kr =>
      reader.inBounds kr.Start kr.End IterKeyType.PointsOnly)).flatten.length
        ≤ 3 * reader.entries.length := by
    have hle : ∀ kr : KeyRange K,
        (reader.inBounds kr.Start kr.End IterKeyType.PointsOnly).length
          ≤ reader.entries.length := fun kr => List.length_filter_le _ _
    have h1 := hle (enc.rangeIDReplicated desc.RangeID)
    have h2 := hle (enc.rangeLocal desc.StartKey desc.EndKey)
    have h3 : (reader.inBounds desc.StartKey desc.EndKey IterKeyType.PointsOnly).length
        ≤ reader.entries.length := List.length_filter_le _ _
    simp only [MakeReplicatedKeyRanges, List.map_cons, List.map_nil, List.flatten_cons,
      List.flatten_nil, List.length_append, List.length_nil]
    omega
  have hfwd := walk_seek_forward reader hf (MakeReplicatedKeyRanges enc desc) hperm fuel
    (by omega)
  have hrev := walk_seek_reverse reader hf (MakeReplicatedKeyRanges enc desc).reverse
    (fun kr hkr => hperm kr (List.mem_reverse.mp hkr)) fuel
    (by rw [flatten_reverse_map_reverse, List.length_reverse]; omega)
  rw [keyOf_flatten_inBounds] at hfwd
  rw [flatten_reverse_map_reverse, List.map_reverse, keyOf_flatten_inBounds] at hrev
  constructor
  · rw [NewReplicaMVCCDataIterator_eq]
    exact hfwd
  · rw [NewReplicaMVCCDataIterator_eq]
    exact hrev

/-- Witness for C5: the sample range over the sample engine contents, wrapped by
a read set that covers exactly the replicated KeyRanges of the range: the
forward walk visits the replicated range-ID keys 22 and 25, the range-local
key 2100 and the user keys 3102 and 3199, the reverse walk visits the same
keys last first. -/
theorem mvccIter_reverse_symmetry_witness :
    walk false 43 (NewReplicaMVCCDataIterator sampleEncoding sampleDesc
        { entries := sampleEntries, fault := none,
          declared := some (fun k _ => decide ((20 ≤ k ∧ k < 30) ∨ (2100 ≤ k ∧ k < 2200) ∨
            (3100 ≤ k ∧ k < 3200))) } false)
      = some ([some (22, 0), some (25, 0), some (2100, 1), some (3102, 1), some (3199, 1)],
          none) ∧
    walk true 43 (NewReplicaMVCCDataIterator sampleEncoding sampleDesc
        { entries := sampleEntries, fault := none,
          declared := some (fun k _ => decide ((20 ≤ k ∧ k < 30) ∨ (2100 ≤ k ∧ k < 2200) ∨
            (3100 ≤ k ∧ k < 3200))) } true)
      = some ([some (3199, 1), some (3102, 1), some (2100, 1), some (25, 0), some (22, 0)],
          none) :=
  mvccIter_reverse_symmetry sampleEncoding sampleDesc
    { entries := sampleEntries, fault := none,
      declared := some (fun k _ => decide ((20 ≤ k ∧ k < 30) ∨ (2100 ≤ k ∧ k < 2200) ∨
        (3100 ≤ k ∧ k < 3200))) } rfl
    (by
      intro ok hok kr hkr k ver h1 h2
      cases hok
      simp only [MakeReplicatedKeyRanges, sampleEncoding, sampleDesc, List.mem_cons,
        List.mem_singleton, List.not_mem_nil, or_false] at hkr
      rcases hkr with rfl | rfl | rfl <;> simp at h1 h2 ⊢ <;> omega)
    43 (by decide)

end rditer
namespace rditer

section roundtrip

variable {K V : Type} [LinearOrder K]

end roundtrip

end rditer

/-! ## Theorems about the sum hash aggregators -/

namespace colexecagg

/-- C14: for every sum hash aggregator (every type `T` of the running total) and
every output index: when `numNonNull = 0`, `Flush` marks slot `outputIdx` NULL
and changes neither the values nor any other null; when `numNonNull ≠ 0` (and
the index is inside the output column) it writes `curAgg` at `col[outputIdx]`,
sets no null and changes no other slot; in both cases the running total and
the count stay as they are. `Reset` followed by `Flush` marks the slot NULL. -/
theorem sumHashAgg_Flush_spec {T : Type} (zero : T) (a : sumHashAgg T) (outputIdx : Nat) :
    (a.numNonNull = 0 →
      ∃ a1, a.Flush outputIdx = Except.ok a1 ∧
        a1.nulls.nullAt outputIdx = true ∧
        (∀ j, j ≠ outputIdx → a1.nulls.nullAt j = a.nulls.nullAt j) ∧
        a1.col = a.col ∧ a1.curAgg = a.curAgg ∧ a1.numNonNull = a.numNonNull) ∧
    (a.numNonNull ≠ 0 → outputIdx < a.col.length →
      ∃ a1, a.Flush outputIdx = Except.ok a1 ∧
        a1.col[outputIdx]? = some a.curAgg ∧
        (∀ j, j ≠ outputIdx → a1.col[j]? = a.col[j]?) ∧
        a1.col.length = a.col.length ∧
        a1.nulls = a.nulls ∧ a1.curAgg = a.curAgg ∧ a1.numNonNull = a.numNonNull) ∧
    (∃ a1, (a.Reset zero).Flush outputIdx = Except.ok a1 ∧
        a1.nulls.nullAt outputIdx = true ∧
        (∀ j, j ≠ outputIdx → a1.nulls.nullAt j = a.nulls.nullAt j) ∧
        a1.col = a.col) := by
  refine ⟨?_, ?_, ?_⟩
  · intro h0
    refine ⟨{ a with nulls := a.nulls.SetNull outputIdx }, by simp [sumHashAgg.Flush, h0],
      ?_, ?_, rfl, rfl, rfl⟩
    · simp [Nulls.SetNull]
    · intro j hj; simp [Nulls.SetNull, hj]
  · intro h0 hidx
    refine ⟨{ a with col := a.col.set outputIdx a.curAgg },
      by simp [sumHashAgg.Flush, h0, hidx], ?_, ?_, ?_, rfl, rfl, rfl⟩
    · simp [hidx]
    · intro j hj
      simp [List.getElem?_set, Ne.symm hj]
    · simp
  · refine ⟨{ a.Reset zero with nulls := a.nulls.SetNull outputIdx },
      by simp [sumHashAgg.Flush, sumHashAgg.Reset], ?_, ?_, rfl⟩
    · simp [Nulls.SetNull]
    · intro j hj; simp [Nulls.SetNull, hj]

/-- Witness for C14: the sample aggregator (three non-null values seen, total
42) flushed to slot 1 writes 42 there and leaves slot 1 non-NULL; after
`Reset`, `Flush` marks slot 1 NULL and leaves the values alone. -/
theorem sumHashAgg_Flush_spec_witness :
    (∃ a1, sampleAgg.Flush 1 = Except.ok a1 ∧
        a1.col[1]? = some 42 ∧
        (∀ j, j ≠ 1 → a1.col[j]? = sampleAgg.col[j]?) ∧
        a1.col.length = 5 ∧
        a1.nulls = sampleAgg.nulls ∧ a1.curAgg = 42 ∧ a1.numNonNull = 3) ∧
    (∃ a1, (sampleAgg.Reset 0).Flush 1 = Except.ok a1 ∧
        a1.nulls.nullAt 1 = true ∧
        (∀ j, j ≠ 1 → a1.nulls.nullAt j = sampleAgg.nulls.nullAt j) ∧
        a1.col = [0, 0, 0, 0, 0]) :=
  ⟨(sumHashAgg_Flush_spec 0 sampleAgg 1).2.1 (by decide) (by decide),
   (sumHashAgg_Flush_spec 0 sampleAgg 1).2.2⟩

end colexecagg

/-! ## Theorems about `pkg/sql/copy.go` -/

namespace sql

/-- What `s.drop i = c :: rest` says about index `i`. -/
theorem drop_cons_facts (s : Str) (i : Nat) (c : Nat) (rest : Str) (h : s.drop i = c :: rest) :
    i < s.length ∧ s.getD i 0 = c ∧ s.drop (i + 1) = rest := by
  have hlt : i < s.length := by
    by_contra hge
    rw [List.drop_eq_nil_of_le (by omega)] at h
    cases h
  refine ⟨hlt, ?_, ?_⟩
  · have h1 : (s.drop i)[0]? = s[i]? := by
      rw [List.getElem?_drop]; simp
    rw [h] at h1
    simp only [List.getElem?_cons_zero] at h1
    simp [List.getD_eq_getElem?_getD, ← h1]
  · have h1 : s.drop (i + 1) = (s.drop i).drop 1 := by
      rw [List.drop_drop, Nat.add_comm]
    rw [h1, h]; rfl

/-- The length of a string in terms of a non-empty suffix. -/
theorem length_of_drop (s : Str) (i : Nat) (c : Nat) (rest : Str) (h : s.drop i = c :: rest) :
    s.length = i + (rest.length + 1) := by
  have h1 := congrArg List.length h
  simp only [List.length_drop, List.length_cons] at h1
  omega

/-- Extending a slice by the character at its end. -/
theorem slice_succ (s : Str) (start i : Nat) (c : Nat) (rest : Str) (hs : start ≤ i)
    (h : s.drop i = c :: rest) : slice s start (i + 1) = slice s start i ++ [c] := by
  obtain ⟨hlt, hget, _⟩ := drop_cons_facts s i c rest h
  have hc : s[i]? = some c := by
    rw [List.getD_eq_getElem?_getD] at hget
    rw [List.getElem?_eq_getElem hlt] at hget ⊢
    simpa using hget
  have htake : s.take (i + 1) = s.take i ++ [c] := by
    rw [List.take_succ, hc]; rfl
  unfold slice
  rw [htake, List.drop_append_of_le_length (by simp; omega)]

/-- The pending slice and the unscanned rest make up the suffix from `start`. -/
theorem slice_append_drop (s : Str) (start i : Nat) (hs : start ≤ i) :
    slice s start i ++ s.drop i = s.drop start := by
  unfold slice
  by_cases hi : i ≤ s.length
  · conv_rhs => rw [← List.take_append_drop i s]
    rw [List.drop_append_of_le_length (by simp; omega)]
  · have h1 : s.take i = s := List.take_of_length_le (by omega)
    have h2 : s.drop i = [] := List.drop_eq_nil_of_le (by omega)
    rw [h1, h2, List.append_nil]

/-- A slice up to or past the end is the suffix. -/
theorem slice_to_end (s : Str) (start i : Nat) (hi : s.length ≤ i) :
    slice s start i = s.drop start := by
  unfold slice
  rw [List.take_of_length_le hi]

/-- The empty slice. -/
theorem slice_self (s : Str) (i : Nat) : slice s i i = [] := by
  unfold slice
  simp [List.drop_eq_nil_iff]

/-- A slice that starts at `i` is a prefix of the suffix from `i`. -/
theorem slice_from (s : Str) (i k : Nat) : slice s i (i + k) = (s.drop i).take k := by
  unfold slice
  rw [List.drop_take]
  simp

/-- Gluing is associative in its output argument. -/
theorem glue_glue (a b : Str) (r : Str × Option CopyError) :
    glue a (glue b r) = glue (a ++ b) r := by
  rcases r with ⟨out, _ | e⟩ <;> simp [glue]


/-- A slice that starts at the end of a prefix. -/
theorem slice_pre (pre l : Str) (k : Nat) :
    slice (pre ++ l) pre.length (pre.length + k) = l.take k := by
  rw [slice_from]; simp

/-- The character `k` places after a prefix. -/
theorem getD_pre (pre l : Str) (k : Nat) : (pre ++ l).getD (pre.length + k) 0 = l.getD k 0 := by
  simp [List.getD_eq_getElem?_getD, List.getElem?_append_right]

/-- The character right after a prefix. -/
theorem getD_pre0 (pre l : Str) : (pre ++ l).getD pre.length 0 = l.getD 0 0 := by
  simpa using getD_pre pre l 0

/-- The optional character `k` places after a prefix. -/
theorem getElem?_pre (pre l : Str) (k : Nat) : (pre ++ l)[pre.length + k]? = l[k]? := by
  simp [List.getElem?_append_right]

/-- An octal digit is not a key of `decodeMap` and is not `x`. -/
theorem decodeMap_octal (ch : Nat) (hc : 48 ≤ ch ∧ ch ≤ 55) : decodeMap ch = 0 ∧ ch ≠ 120 := by
  refine ⟨?_, by omega⟩
  unfold decodeMap
  split_ifs <;> omega

/-- One iteration of the loop of `decodeCopy` at a backslash that follows the
prefix `pre`: it fails with the error of `decodeEscape`, or it goes on behind
the characters `decodeEscape` consumed, having written the pending slice and
the decoded byte. -/
theorem loop_escape (pre : Str) (fuel start : Nat) (buf rest : Str) :
    (∀ e, decodeEscape rest = Except.error e →
      decodeCopyLoop (pre ++ 92 :: rest) (fuel + 1) pre.length start buf = ([], some e)) ∧
    (∀ b r, decodeEscape rest = Except.ok (b, r) →
      ∃ mid, rest = mid ++ r ∧ mid ≠ [] ∧
        decodeCopyLoop (pre ++ 92 :: rest) (fuel + 1) pre.length start buf
          = decodeCopyLoop (pre ++ 92 :: rest) fuel (pre.length + 1 + mid.length)
              (pre.length + 1 + mid.length)
              (buf ++ slice (pre ++ 92 :: rest) start pre.length ++ [b])) := by
  cases rest with
  | nil =>
    refine ⟨?_, ?_⟩
    · intro e he
      simp only [decodeEscape, Except.error.injEq] at he
      subst he
      have := slice_pre pre [92] 1
      simp only [decodeCopyLoop, getD_pre0, List.length_append, List.length_cons,
        List.length_nil]
      simp
      simpa using this
    · intro b r he
      simp [decodeEscape] at he
  | cons ch r =>
    by_cases hm : decodeMap ch = 0
    swap
    · refine ⟨?_, ?_⟩
      · intro e he
        simp [decodeEscape, hm] at he
      · intro b r0 he
        simp only [decodeEscape, ne_eq, hm, not_false_eq_true, ↓reduceIte, Except.ok.injEq,
          Prod.mk.injEq] at he
        obtain ⟨rfl, rfl⟩ := he
        refine ⟨[ch], by simp, by simp, ?_⟩
        simp only [decodeCopyLoop, getD_pre0, getD_pre, List.length_append, List.length_cons,
          Nat.add_assoc, List.getD_cons_succ, List.getD_cons_zero]
        simp [hm, Nat.add_assoc, getElem?_pre, List.getElem_append_right, slice_pre]
    · by_cases hx : ch = 120
      · subst hx
        cases r with
        | nil =>
          refine ⟨?_, ?_⟩
          · intro e he
            simp [decodeEscape, hm] at he
            subst he
            simp only [decodeCopyLoop, getD_pre0, getD_pre, List.length_append,
              List.length_cons, Nat.add_assoc, List.getD_cons_succ, List.getD_cons_zero]
            simp [hm, Nat.add_assoc, getElem?_pre, List.getElem_append_right, slice_pre]
          · intro b r0 he
            simp [decodeEscape, hm] at he
        | cons h r1 =>
          by_cases hh : (decodeHexDigit h).2 = true
          swap
          · refine ⟨?_, ?_⟩
            · intro e he
              simp [decodeEscape, hm, hh] at he
              subst he
              simp only [decodeCopyLoop, getD_pre0, getD_pre, List.length_append,
                List.length_cons, Nat.add_assoc, List.getD_cons_succ, List.getD_cons_zero]
              simp [hm, hh, Nat.add_assoc, getElem?_pre, List.getElem_append_right, slice_pre]
            · intro b r0 he
              simp [decodeEscape, hm, hh] at he
          · cases r1 with
            | nil =>
              refine ⟨?_, ?_⟩
              · intro e he
                simp [decodeEscape, hm, hh] at he
              · intro b r0 he
                simp [decodeEscape, hm, hh] at he
                obtain ⟨rfl, rfl⟩ := he
                refine ⟨[120, h], by simp, by simp, ?_⟩
                simp only [decodeCopyLoop, getD_pre0, getD_pre, List.length_append,
                  List.length_cons, Nat.add_assoc, List.getD_cons_succ, List.getD_cons_zero]
                simp [hm, hh, Nat.add_assoc, getElem?_pre, List.getElem_append_right, slice_pre]
            | cons h2 r2 =>
              by_cases hh2 : (decodeHexDigit h2).2 = true
              · refine ⟨?_, ?_⟩
                · intro e he
                  simp [decodeEscape, hm, hh, hh2] at he
                · intro b r0 he
                  simp [decodeEscape, hm, hh, hh2] at he
                  obtain ⟨rfl, rfl⟩ := he
                  refine ⟨[120, h, h2], by simp, by simp, ?_⟩
                  simp only [decodeCopyLoop, getD_pre0, getD_pre, List.length_append,
                    List.length_cons, Nat.add_assoc, List.getD_cons_succ, List.getD_cons_zero]
                  simp [hm, hh, hh2, Nat.add_assoc, getElem?_pre, List.getElem_append_right,
                    slice_pre]
              · refine ⟨?_, ?_⟩
                · intro e he
                  simp [decodeEscape, hm, hh, hh2] at he
                · intro b r0 he
                  simp [decodeEscape, hm, hh, hh2] at he
                  obtain ⟨rfl, rfl⟩ := he
                  refine ⟨[120, h], by simp, by simp, ?_⟩
                  simp only [decodeCopyLoop, getD_pre0, getD_pre, List.length_append,
                    List.length_cons, Nat.add_assoc, List.getD_cons_succ, List.getD_cons_zero]
                  simp [hm, hh, hh2, Nat.add_assoc, getElem?_pre, List.getElem_append_right,
                    slice_pre]
      · by_cases hc : 48 ≤ ch ∧ ch ≤ 55
        swap
        · refine ⟨?_, ?_⟩
          · intro e he
            simp [decodeEscape, hm, hx, hc] at he
            subst he
            simp only [decodeCopyLoop, getD_pre0, getD_pre, List.length_append,
              List.length_cons, Nat.add_assoc, List.getD_cons_succ, List.getD_cons_zero]
            simp [hm, hx, hc, Nat.add_assoc, getElem?_pre, List.getElem_append_right, slice_pre]
          · intro b r0 he
            simp [decodeEscape, hm, hx, hc] at he
        · cases r with
          | nil =>
            refine ⟨?_, ?_⟩
            · intro e he
              simp [decodeEscape, hm, hx, hc] at he
            · intro b r0 he
              simp [decodeEscape, hm, hx, hc] at he
              obtain ⟨rfl, rfl⟩ := he
              refine ⟨[ch], by simp, by simp, ?_⟩
              simp only [decodeCopyLoop, getD_pre0, getD_pre, List.length_append,
                List.length_cons, Nat.add_assoc, List.getD_cons_succ, List.getD_cons_zero]
              simp [hm, hx, hc, Nat.add_assoc, getElem?_pre, List.getElem_append_right,
                slice_pre]
          | cons d2 r1 =>
            by_cases hd2 : (decodeOctDigit d2).2 = true
            swap
            · refine ⟨?_, ?_⟩
              · intro e he
                simp [decodeEscape, hm, hx, hc, hd2] at he
              · intro b r0 he
                simp [decodeEscape, hm, hx, hc, hd2] at he
                obtain ⟨rfl, rfl⟩ := he
                refine ⟨[ch], by simp, by simp, ?_⟩
                simp only [decodeCopyLoop, getD_pre0, getD_pre, List.length_append,
                  List.length_cons, Nat.add_assoc, List.getD_cons_succ, List.getD_cons_zero]
                simp [hm, hx, hc, hd2, Nat.add_assoc, getElem?_pre, List.getElem_append_right,
                  slice_pre]
            · cases r1 with
              | nil =>
                refine ⟨?_, ?_⟩
                · intro e he
                  simp [decodeEscape, hm, hx, hc, hd2] at he
                · intro b r0 he
                  simp [decodeEscape, hm, hx, hc, hd2] at he
                  obtain ⟨rfl, rfl⟩ := he
                  refine ⟨[ch, d2], by simp, by simp, ?_⟩
                  simp only [decodeCopyLoop, getD_pre0, getD_pre, List.length_append,
                    List.length_cons, Nat.add_assoc, List.getD_cons_succ, List.getD_cons_zero]
                  simp [hm, hx, hc, hd2, Nat.add_assoc, getElem?_pre,
                    List.getElem_append_right, slice_pre]
              | cons d3 r2 =>
                by_cases hd3 : (decodeOctDigit d3).2 = true
                · refine ⟨?_, ?_⟩
                  · intro e he
                    simp [decodeEscape, hm, hx, hc, hd2, hd3] at he
                  · intro b r0 he
                    simp [decodeEscape, hm, hx, hc, hd2, hd3] at he
                    obtain ⟨rfl, rfl⟩ := he
                    refine ⟨[ch, d2, d3], by simp, by simp, ?_⟩
                    simp only [decodeCopyLoop, getD_pre0, getD_pre, List.length_append,
                      List.length_cons, Nat.add_assoc, List.getD_cons_succ, List.getD_cons_zero]
                    simp [hm, hx, hc, hd2, hd3, Nat.add_assoc, getElem?_pre,
                      List.getElem_append_right, slice_pre]
                · refine ⟨?_, ?_⟩
                  · intro e he
                    simp [decodeEscape, hm, hx, hc, hd2, hd3] at he
                  · intro b r0 he
                    simp [decodeEscape, hm, hx, hc, hd2, hd3] at he
                    obtain ⟨rfl, rfl⟩ := he
                    refine ⟨[ch, d2], by simp, by simp, ?_⟩
                    simp only [decodeCopyLoop, getD_pre0, getD_pre, List.length_append,
                      List.length_cons, Nat.add_assoc, List.getD_cons_succ, List.getD_cons_zero]
                    simp [hm, hx, hc, hd2, hd3, Nat.add_assoc, getElem?_pre,
                      List.getElem_append_right, slice_pre]


/-- The suffix of `pre ++ l` behind `pre`. -/
theorem drop_pre (pre l : Str) : (pre ++ l).drop pre.length = l := by simp

/-- The loop of `decodeCopy` at the end of the prefix `pre` computes what
`decodeList` computes on the rest, after the output so far and the pending
slice. -/
theorem loop_eq_list : ∀ (fuel : Nat) (pre l : Str) (start : Nat) (buf : Str),
    start ≤ pre.length →
    decodeCopyLoop (pre ++ l) fuel pre.length start buf
      = glue (buf ++ slice (pre ++ l) start pre.length) (decodeList fuel l) := by
  intro fuel
  induction fuel with
  | zero =>
    intro pre l start buf hs
    have h1 := slice_append_drop (pre ++ l) start pre.length hs
    rw [drop_pre] at h1
    simp only [decodeCopyLoop, decodeList, glue, List.append_assoc, h1]
    rw [slice_to_end _ _ _ (le_refl _)]
  | succ fuel ih =>
    intro pre l start buf hs
    cases l with
    | nil =>
      simp only [decodeCopyLoop, decodeList, glue, List.append_nil, lt_irrefl, ↓reduceIte]
    | cons c rest =>
      have hlen : pre.length < (pre ++ c :: rest).length := by simp
      have hget : (pre ++ c :: rest).getD pre.length 0 = c := by
        rw [getD_pre0]; rfl
      have hsucc := slice_succ (pre ++ c :: rest) start pre.length c rest hs (drop_pre _ _)
      by_cases hc : c = 92
      · subst hc
        obtain ⟨herr, hok⟩ := loop_escape pre fuel start buf rest
        cases hde : decodeEscape rest with
        | error e =>
          rw [herr e hde]
          simp [decodeList, hde, glue]
        | ok p =>
          obtain ⟨b, r⟩ := p
          obtain ⟨mid, hmid, _, hloop⟩ := hok b r hde
          rw [hloop]
          have h2 := ih (pre ++ 92 :: mid) r (pre.length + 1 + mid.length)
            (buf ++ slice (pre ++ 92 :: rest) start pre.length ++ [b]) (by simp; omega)
          have h3 : pre ++ 92 :: mid ++ r = pre ++ 92 :: rest := by simp [hmid]
          have h4 : (pre ++ 92 :: mid).length = pre.length + 1 + mid.length := by
            simp; omega
          rw [h3, h4, slice_self, List.append_nil] at h2
          rw [h2]
          simp only [decodeList, hde, ne_eq, not_true_eq_false, ↓reduceIte, glue_glue,
            List.append_assoc]
      · have h2 := ih (pre ++ [c]) rest start buf (by simp; omega)
        have h3 : pre ++ [c] ++ rest = pre ++ c :: rest := by simp
        have h4 : (pre ++ [c]).length = pre.length + 1 := by simp
        rw [h3, h4, hsucc] at h2
        have h5 : decodeCopyLoop (pre ++ c :: rest) (fuel + 1) pre.length start buf
            = decodeCopyLoop (pre ++ c :: rest) fuel (pre.length + 1) start buf := by
          rw [decodeCopyLoop]
          simp only [hlen, hget, hc, ne_eq, not_false_eq_true, ↓reduceIte]
        rw [h5, h2]
        simp only [decodeList, hc, ne_eq, not_false_eq_true, ↓reduceIte, glue_glue,
          List.append_assoc]

/-- A glued result with an error has an empty output. -/
theorem glue_error (a : Str) (r : Str × Option CopyError) (h : (glue a r).2 ≠ none) :
    (glue a r).1 = [] := by
  rcases r with ⟨out, _ | e⟩ <;> simp_all [glue]

/-- The list decoder returns an empty output with an error. -/
theorem decodeList_error (fuel : Nat) (l : Str) (h : (decodeList fuel l).2 ≠ none) :
    (decodeList fuel l).1 = [] := by
  cases fuel with
  | zero => simp [decodeList] at h
  | succ fuel =>
    cases l with
    | nil => simp [decodeList]
    | cons c rest =>
      by_cases hc : c = 92
      · subst hc
        cases hde : decodeEscape rest with
        | error e => simp [decodeList, hde]
        | ok p =>
          simp only [decodeList, hde, ne_eq, not_true_eq_false, ↓reduceIte] at h ⊢
          exact glue_error _ _ h
      · simp only [decodeList, hc, ne_eq, not_false_eq_true, ↓reduceIte] at h ⊢
        exact glue_error _ _ h

/-- Gluing the empty output in front of a result of the list decoder changes nothing. -/
theorem glue_nil_decodeList (fuel : Nat) (l : Str) :
    glue [] (decodeList fuel l) = decodeList fuel l := by
  have h := decodeList_error fuel l
  rcases hd : decodeList fuel l with ⟨out, _ | e⟩
  · simp [glue]
  · rw [hd] at h
    have : out = [] := h (by simp)
    simp [glue, this]

/-- The function `decodeCopy` computes what `decodeList` computes on the whole input. -/
theorem decodeCopy_eq_list (s : Str) : decodeCopy s = decodeList (s.length + 1) s := by
  have h := loop_eq_list (s.length + 1) [] s 0 [] (le_refl _)
  simp only [List.nil_append, List.length_nil] at h
  unfold decodeCopy
  rw [h, slice_self, glue_nil_decodeList]


/-- The keys of `decodeMap` are the single-character escapes. -/
theorem decodeMap_ne_zero (ch : Nat) : decodeMap ch ≠ 0 ↔ isSimpleEscape ch = true := by
  unfold decodeMap isSimpleEscape
  split_ifs <;> simp <;> omega

/-- The hex digits of `decodeDigit`. -/
theorem decodeHexDigit_snd (c : Nat) : (decodeHexDigit c).2 = isHexDigit c := by
  unfold decodeHexDigit decodeDigit isHexDigit
  split_ifs <;> simp_all <;> omega

/-- The octal digits of `decodeDigit`. -/
theorem decodeOctDigit_snd (c : Nat) : (decodeOctDigit c).2 = isOctDigit c := by
  unfold decodeOctDigit decodeDigit isOctDigit
  split_ifs <;> simp_all

/-- The escapes `decodeEscape` rejects are those without a width, and the
characters it leaves are those behind the width. -/
theorem decodeEscape_width (rest : Str) :
    (∀ e, decodeEscape rest = Except.error e → escapeWidth rest = none) ∧
    (∀ b r, decodeEscape rest = Except.ok (b, r) →
      ∃ w, escapeWidth rest = some w ∧ r = rest.drop w ∧ r.length < rest.length) := by
  cases rest with
  | nil => simp [decodeEscape, escapeWidth]
  | cons ch r =>
    by_cases hm : decodeMap ch = 0
    swap
    · have hs := (decodeMap_ne_zero ch).1 hm
      simp [decodeEscape, escapeWidth, hm, hs]
    · have hs : isSimpleEscape ch = false := by
        by_contra hne
        exact ((decodeMap_ne_zero ch).2 (by simpa using hne)) hm
      by_cases hx : ch = 120
      · subst hx
        cases r with
        | nil => simp [decodeEscape, escapeWidth, hm, hs]
        | cons h r1 =>
          by_cases hh : isHexDigit h = true
          swap
          · simp [decodeEscape, escapeWidth, hm, hs, hh, decodeHexDigit_snd]
          · cases r1 with
            | nil => simp [decodeEscape, escapeWidth, hm, hs, hh, decodeHexDigit_snd]
            | cons h2 r2 =>
              by_cases hh2 : isHexDigit h2 = true
              · simp [decodeEscape, escapeWidth, hm, hs, hh, hh2, decodeHexDigit_snd]
                omega
              · simp [decodeEscape, escapeWidth, hm, hs, hh, hh2, decodeHexDigit_snd]
      · by_cases hc : 48 ≤ ch ∧ ch ≤ 55
        swap
        · have ho : isOctDigit ch = false := by simp [isOctDigit]; omega
          simp [decodeEscape, escapeWidth, hm, hs, hx, hc, ho]
        · have ho : isOctDigit ch = true := by simp [isOctDigit]; omega
          cases r with
          | nil => simp [decodeEscape, escapeWidth, hm, hs, hx, hc, ho]
          | cons d2 r1 =>
            by_cases hd2 : isOctDigit d2 = true
            swap
            · simp [decodeEscape, escapeWidth, hm, hs, hx, hc, ho, hd2, decodeOctDigit_snd,
                List.takeWhile]
            · cases r1 with
              | nil =>
                simp [decodeEscape, escapeWidth, hm, hs, hx, hc, ho, hd2, decodeOctDigit_snd,
                  List.takeWhile]
              | cons d3 r2 =>
                by_cases hd3 : isOctDigit d3 = true
                · simp [decodeEscape, escapeWidth, hm, hs, hx, hc, ho, hd2, hd3,
                    decodeOctDigit_snd, List.takeWhile]
                  omega
                · simp [decodeEscape, escapeWidth, hm, hs, hx, hc, ho, hd2, hd3,
                    decodeOctDigit_snd, List.takeWhile]

/-- Skipping the characters of an escape is scanning what follows them. -/
theorem hasBadEscapeFrom_skip : ∀ (w : Nat) (l : Str),
    hasBadEscapeFrom w l = hasBadEscapeFrom 0 (l.drop w)
  | 0, l => by simp
  | w + 1, [] => by simp [hasBadEscapeFrom]
  | w + 1, _ :: rest => by
    simp only [hasBadEscapeFrom, List.drop_succ_cons]
    exact hasBadEscapeFrom_skip w rest

/-- Gluing keeps the error. -/
theorem glue_snd (a : Str) (r : Str × Option CopyError) : (glue a r).2 = r.2 := by
  rcases r with ⟨out, _ | e⟩ <;> simp [glue]

/-- With enough fuel the list decoder fails exactly on the inputs with a
malformed escape. -/
theorem decodeList_error_iff : ∀ (fuel : Nat) (l : Str), l.length < fuel →
    ((decodeList fuel l).2.isSome = hasBadEscapeFrom 0 l) := by
  intro fuel
  induction fuel with
  | zero => intro l h; omega
  | succ fuel ih =>
    intro l h
    cases l with
    | nil => simp [decodeList, hasBadEscapeFrom]
    | cons c rest =>
      simp only [List.length_cons] at h
      by_cases hc : c = 92
      · subst hc
        obtain ⟨herr, hok⟩ := decodeEscape_width rest
        cases hde : decodeEscape rest with
        | error e =>
          simp [decodeList, hasBadEscapeFrom, hde, herr e hde]
        | ok p =>
          obtain ⟨b, r⟩ := p
          obtain ⟨w, hw, hr, hlen⟩ := hok b r hde
          simp only [decodeList, hasBadEscapeFrom, hde, hw, ne_eq, not_true_eq_false,
            ↓reduceIte, glue_snd]
          rw [hasBadEscapeFrom_skip, ← hr]
          exact ih r (by omega)
      · simp only [decodeList, hasBadEscapeFrom, hc, ne_eq, not_false_eq_true, ↓reduceIte,
          glue_snd]
        exact ih rest (by omega)


/-- With enough fuel the result of the list decoder does not depend on the fuel. -/
theorem decodeList_fuel : ∀ (f1 f2 : Nat) (l : Str), l.length < f1 → l.length < f2 →
    decodeList f1 l = decodeList f2 l := by
  intro f1
  induction f1 with
  | zero => intro f2 l h; omega
  | succ f1 ih =>
    intro f2 l h1 h2
    cases f2 with
    | zero => omega
    | succ f2 =>
      cases l with
      | nil => simp [decodeList]
      | cons c rest =>
        simp only [List.length_cons] at h1 h2
        by_cases hc : c = 92
        · subst hc
          obtain ⟨_, hok⟩ := decodeEscape_width rest
          cases hde : decodeEscape rest with
          | error e => simp [decodeList, hde]
          | ok p =>
            obtain ⟨b, r⟩ := p
            obtain ⟨w, _, _, hlen⟩ := hok b r hde
            simp only [decodeList, hde, ne_eq, not_true_eq_false, ↓reduceIte]
            rw [ih f2 r (by omega) (by omega)]
        · simp only [decodeList, hc, ne_eq, not_false_eq_true, ↓reduceIte]
          rw [ih f2 rest (by omega) (by omega)]

/-- With enough fuel the list decoder computes `decodeCopy`. -/
theorem decodeList_eq_decodeCopy (f : Nat) (l : Str) (h : l.length < f) :
    decodeList f l = decodeCopy l := by
  rw [decodeCopy_eq_list]
  exact decodeList_fuel f (l.length + 1) l h (by omega)

/-- The function `decodeCopy` copies a character that is not a backslash. -/
theorem decodeCopy_cons_plain (c : Nat) (l : Str) (hc : c ≠ 92) :
    decodeCopy (c :: l) = glue [c] (decodeCopy l) := by
  rw [decodeCopy_eq_list (c :: l)]
  simp only [List.length_cons, decodeList, hc, ne_eq, not_false_eq_true, ↓reduceIte]
  rw [decodeList_eq_decodeCopy _ _ (by omega)]

/-- The function `decodeCopy` at a well-formed escape writes its byte and goes
on behind it. -/
theorem decodeCopy_cons_escape (rest r : Str) (b : Nat)
    (hde : decodeEscape rest = Except.ok (b, r)) :
    decodeCopy (92 :: rest) = glue [b] (decodeCopy r) := by
  obtain ⟨w, _, _, hlen⟩ := (decodeEscape_width rest).2 b r hde
  rw [decodeCopy_eq_list (92 :: rest)]
  simp only [List.length_cons, decodeList, hde, ne_eq, not_true_eq_false, ↓reduceIte]
  rw [decodeList_eq_decodeCopy _ _ (by omega)]

/-- The function `decodeCopy` copies a prefix without a backslash. -/
theorem decodeCopy_plain_append (pre l : Str) (hpre : ∀ c ∈ pre, c ≠ 92) :
    decodeCopy (pre ++ l) = glue pre (decodeCopy l) := by
  induction pre with
  | nil =>
    rw [List.nil_append, decodeCopy_eq_list l, glue_nil_decodeList]
  | cons c pre ih =>
    have hc : c ≠ 92 := hpre c (by simp)
    have ih2 := ih (fun d hd => hpre d (by simp [hd]))
    rw [List.cons_append, decodeCopy_cons_plain _ _ hc, ih2, glue_glue]
    rfl

/-- The function `decodeCopy` returns an input without a backslash unchanged. -/
theorem decodeCopy_plain (l : Str) (hl : ∀ c ∈ l, c ≠ 92) : decodeCopy l = (l, none) := by
  have h := decodeCopy_plain_append l [] hl
  rw [List.append_nil] at h
  rw [h]
  simp [decodeCopy, decodeCopyLoop, glue, slice]


/-- What `decodeDigit` yields on an octal digit. -/
theorem octDigit_facts (c : Nat) (h : isOctDigit c = true) :
    decodeMap c = 0 ∧ c ≠ 120 ∧ (48 ≤ c ∧ c ≤ 55) ∧ (decodeOctDigit c).2 = true ∧
      (decodeOctDigit c).1 = octDigitValue c ∧ octDigitValue c ≤ 7 := by
  have hc : 48 ≤ c ∧ c ≤ 55 := by simpa [isOctDigit] using h
  refine ⟨(decodeMap_octal c hc).1, (decodeMap_octal c hc).2, hc, ?_, ?_, ?_⟩
  · rw [decodeOctDigit_snd]; exact h
  · simp [decodeOctDigit, decodeDigit, hc, octDigitValue]
  · unfold octDigitValue; omega

/-- What `decodeDigit` yields on a hex digit. -/
theorem hexDigit_facts (c : Nat) (h : isHexDigit c = true) :
    (decodeHexDigit c).2 = true ∧ (decodeHexDigit c).1 = hexDigitValue c ∧
      hexDigitValue c ≤ 15 := by
  have hc : (48 ≤ c ∧ c ≤ 57) ∨ (97 ≤ c ∧ c ≤ 102) ∨ (65 ≤ c ∧ c ≤ 70) := by
    simpa [isHexDigit] using h
  refine ⟨by rw [decodeHexDigit_snd]; exact h, ?_, ?_⟩
  · unfold decodeHexDigit decodeDigit hexDigitValue
    split_ifs <;> simp_all <;> omega
  · unfold hexDigitValue
    split_ifs <;> omega

/-- A greedy run of one to three octal digits after a backslash is decoded to
its value modulo 256. -/
theorem decodeEscape_octal (ds rest : Str)
    (hds : ds ≠ [] ∧ ds.length ≤ 3 ∧ ∀ c ∈ ds, isOctDigit c = true)
    (hgreedy : ds.length = 3 ∨ ∀ c, rest.head? = some c → isOctDigit c = false) :
    decodeEscape (ds ++ rest) = Except.ok (octalValue ds % 256, rest) := by
  obtain ⟨hne, hlen, hall⟩ := hds
  match ds, hne, hlen, hall, hgreedy with
  | [d1], _, _, hall, hgreedy =>
    obtain ⟨hm, hx, hc, _, hv1, hb1⟩ := octDigit_facts d1 (hall d1 (by simp))
    have hval : octalValue [d1] % 256 = octDigitValue d1 := by
      simp only [octalValue, List.foldl]; omega
    rw [hval]
    cases rest with
    | nil => simp [decodeEscape, hm, hx, hc, hv1]
    | cons r0 rest =>
      have hr0 : isOctDigit r0 = false := by
        rcases hgreedy with h | h
        · simp at h
        · exact h r0 rfl
      simp [decodeEscape, hm, hx, hc, hv1, decodeOctDigit_snd, hr0]
  | [d1, d2], _, _, hall, hgreedy =>
    obtain ⟨hm, hx, hc, _, hv1, hb1⟩ := octDigit_facts d1 (hall d1 (by simp))
    obtain ⟨_, _, _, ho2, hv2, hb2⟩ := octDigit_facts d2 (hall d2 (by simp))
    have hval : octalValue [d1, d2] % 256
        = (octDigitValue d1 * 8 % 256 + octDigitValue d2) % 256 := by
      simp only [octalValue, List.foldl]; omega
    rw [hval]
    cases rest with
    | nil => simp [decodeEscape, hm, hx, hc, hv1, hv2, ho2]
    | cons r0 rest =>
      have hr0 : isOctDigit r0 = false := by
        rcases hgreedy with h | h
        · simp at h
        · exact h r0 rfl
      have hr0b : (decodeOctDigit r0).2 = false := by rw [decodeOctDigit_snd]; exact hr0
      simp [decodeEscape, hm, hx, hc, hv1, hv2, ho2, hr0b]
  | [d1, d2, d3], _, _, hall, _ =>
    obtain ⟨hm, hx, hc, _, hv1, hb1⟩ := octDigit_facts d1 (hall d1 (by simp))
    obtain ⟨_, _, _, ho2, hv2, hb2⟩ := octDigit_facts d2 (hall d2 (by simp))
    obtain ⟨_, _, _, ho3, hv3, hb3⟩ := octDigit_facts d3 (hall d3 (by simp))
    have hval : octalValue [d1, d2, d3] % 256
        = ((octDigitValue d1 * 8 % 256 + octDigitValue d2) % 256 * 8 % 256
            + octDigitValue d3) % 256 := by
      simp only [octalValue, List.foldl]; omega
    rw [hval]
    simp [decodeEscape, hm, hx, hc, hv1, hv2, hv3, ho2, ho3]
  | _ :: _ :: _ :: _ :: _, _, hlen, _, _ => simp at hlen

/-- A greedy run of one or two hex digits after a backslash and `x` is decoded
to its value. -/
theorem decodeEscape_hex (hs rest : Str)
    (hhs : hs ≠ [] ∧ hs.length ≤ 2 ∧ ∀ c ∈ hs, isHexDigit c = true)
    (hgreedy : hs.length = 2 ∨ ∀ c, rest.head? = some c → isHexDigit c = false) :
    decodeEscape (120 :: hs ++ rest) = Except.ok (hexValue hs, rest) := by
  obtain ⟨hne, hlen, hall⟩ := hhs
  have hm : decodeMap 120 = 0 := by decide
  match hs, hne, hlen, hall, hgreedy with
  | [h1], _, _, hall, hgreedy =>
    obtain ⟨ho1, hv1, hb1⟩ := hexDigit_facts h1 (hall h1 (by simp))
    have hval : hexValue [h1] = hexDigitValue h1 := by
      simp only [hexValue, List.foldl]; omega
    rw [hval]
    cases rest with
    | nil => simp [decodeEscape, hm, ho1, hv1]
    | cons r0 rest =>
      have hr0 : isHexDigit r0 = false := by
        rcases hgreedy with h | h
        · simp at h
        · exact h r0 rfl
      have hr0b : (decodeHexDigit r0).2 = false := by rw [decodeHexDigit_snd]; exact hr0
      simp [decodeEscape, hm, ho1, hv1, hr0b]
  | [h1, h2], _, _, hall, _ =>
    obtain ⟨ho1, hv1, hb1⟩ := hexDigit_facts h1 (hall h1 (by simp))
    obtain ⟨ho2, hv2, hb2⟩ := hexDigit_facts h2 (hall h2 (by simp))
    have hval : hexValue [h1, h2]
        = (hexDigitValue h1 * 16 % 256 + hexDigitValue h2) % 256 := by
      simp only [hexValue, List.foldl]; omega
    rw [hval]
    simp [decodeEscape, hm, ho1, ho2, hv1, hv2]
  | _ :: _ :: _ :: _, _, hlen, _, _ => simp at hlen


/-- C15: the function `decodeCopy` returns an error, and then the empty string,
exactly when, scanning left to right, some backslash that starts an escape is
the last character, is followed by a character that is none of `b`, `f`, `n`,
`r`, `t`, `v`, backslash, `x` or an octal digit, or is followed by an `x`
that no hex digit follows; for every other input the error is nil. -/
theorem decodeCopy_error_iff_bad_escape (s : Str) :
    (hasBadEscape s = true ∧ (decodeCopy s).1 = [] ∧ (decodeCopy s).2 ≠ none) ∨
    (hasBadEscape s = false ∧ (decodeCopy s).2 = none) := by
  have h1 := decodeList_error_iff (s.length + 1) s (by omega)
  have h2 := decodeList_error (s.length + 1) s
  rw [← decodeCopy_eq_list] at h1 h2
  unfold hasBadEscape
  cases hb : hasBadEscapeFrom 0 s with
  | true =>
    left
    rw [hb] at h1
    have h3 : (decodeCopy s).2 ≠ none := by
      intro hn
      rw [hn] at h1
      simp at h1
    exact ⟨rfl, h2 h3, h3⟩
  | false =>
    right
    rw [hb] at h1
    refine ⟨rfl, ?_⟩
    cases hd : (decodeCopy s).2 with
    | none => rfl
    | some e =>
      rw [hd] at h1
      simp at h1

/-- C16: after a prefix without a backslash, a backslash followed by a greedy
run of one to three octal digits is decoded to the single byte whose value is
the octal number modulo 256, and a backslash, `x` and a greedy run of one or
two hex digits of either case to the byte whose value is the hex number; the
characters after the digits are decoded on their own, and copied unchanged when
they hold no backslash. -/
theorem decodeCopy_numeric_escapes :
    (∀ pre ds rest : Str, (∀ c ∈ pre, c ≠ 92) →
      (ds ≠ [] ∧ ds.length ≤ 3 ∧ ∀ c ∈ ds, isOctDigit c = true) →
      (ds.length = 3 ∨ ∀ c, rest.head? = some c → isOctDigit c = false) →
      decodeCopy (pre ++ 92 :: ds ++ rest)
          = glue (pre ++ [octalValue ds % 256]) (decodeCopy rest) ∧
        ((∀ c ∈ rest, c ≠ 92) →
          decodeCopy (pre ++ 92 :: ds ++ rest)
            = (pre ++ [octalValue ds % 256] ++ rest, none))) ∧
    (∀ pre hs rest : Str, (∀ c ∈ pre, c ≠ 92) →
      (hs ≠ [] ∧ hs.length ≤ 2 ∧ ∀ c ∈ hs, isHexDigit c = true) →
      (hs.length = 2 ∨ ∀ c, rest.head? = some c → isHexDigit c = false) →
      decodeCopy (pre ++ 92 :: 120 :: hs ++ rest)
          = glue (pre ++ [hexValue hs]) (decodeCopy rest) ∧
        ((∀ c ∈ rest, c ≠ 92) →
          decodeCopy (pre ++ 92 :: 120 :: hs ++ rest)
            = (pre ++ [hexValue hs] ++ rest, none))) := by
  refine ⟨?_, ?_⟩
  · intro pre ds rest hpre hds hg
    have h1 := decodeEscape_octal ds rest hds hg
    have h2 : pre ++ 92 :: ds ++ rest = pre ++ (92 :: (ds ++ rest)) := by simp
    have h3 : decodeCopy (pre ++ 92 :: ds ++ rest)
        = glue (pre ++ [octalValue ds % 256]) (decodeCopy rest) := by
      rw [h2, decodeCopy_plain_append _ _ hpre, decodeCopy_cons_escape _ _ _ h1, glue_glue]
    refine ⟨h3, ?_⟩
    intro hrest
    rw [h3, decodeCopy_plain rest hrest]
    simp [glue]
  · intro pre hs rest hpre hhs hg
    have h1 := decodeEscape_hex hs rest hhs hg
    have h2 : pre ++ 92 :: 120 :: hs ++ rest = pre ++ (92 :: (120 :: hs ++ rest)) := by simp
    have h3 : decodeCopy (pre ++ 92 :: 120 :: hs ++ rest)
        = glue (pre ++ [hexValue hs]) (decodeCopy rest) := by
      rw [h2, decodeCopy_plain_append _ _ hpre, decodeCopy_cons_escape _ _ _ h1, glue_glue]
    refine ⟨h3, ?_⟩
    intro hrest
    rw [h3, decodeCopy_plain rest hrest]
    simp [glue]

/-- Witness for C16: `a\777b` decodes to `a`, the byte 255 (0o777 = 511 modulo
256) and `b`; `a\x4Ab` decodes to `a`, the byte 0x4A and `b`. -/
theorem decodeCopy_numeric_escapes_witness :
    decodeCopy [97, 92, 55, 55, 55, 98] = ([97, 255, 98], none) ∧
    decodeCopy [97, 92, 120, 52, 65, 98] = ([97, 74, 98], none) :=
  ⟨(decodeCopy_numeric_escapes.1 [97] [55, 55, 55] [98] (by decide) (by decide)
      (by decide)).2 (by decide),
   (decodeCopy_numeric_escapes.2 [97] [52, 65] [98] (by decide) (by decide)
      (by decide)).2 (by decide)⟩


/-- Reading from a non-empty buffer takes at least one byte out of it. -/
theorem ReadBytes_rest_lt (delim : Nat) : ∀ (l : Str), l ≠ [] →
    (ReadBytes delim l).rest.length < l.length
  | [], h => absurd rfl h
  | c :: rest, _ => by
    by_cases hc : c = delim
    · simp [ReadBytes, hc]
    · cases rest with
      | nil => simp [ReadBytes, hc]
      | cons c2 rest2 =>
        have ih := ReadBytes_rest_lt delim (c2 :: rest2) (by simp)
        simp only [ReadBytes, hc, ↓reduceIte, List.length_cons] at ih ⊢
        omega

/-- Growing the account leaves the buffer alone. -/
theorem grow_buf {D : Type} (env : CopyEnv D) (c : copyMachine D) (x : Int) :
    (c.grow env x).1.buf = c.buf := by
  unfold copyMachine.grow
  cases env.Grow c.rowsMemAcc x <;> rfl

/-- The loop of `addRow` leaves the buffer alone. -/
theorem addRowParts_buf {D : Type} (env : CopyEnv D) :
    ∀ (ps : List (Str × ColType)) (c : copyMachine D) (exprs : Tuple D),
      (addRowParts env ps c exprs).1.buf = c.buf
  | [], c, exprs => rfl
  | (s, t) :: rest, c, exprs => by
    unfold addRowParts
    by_cases h1 : s = [92, 78]
    · simp only [h1, ↓reduceIte]
      exact addRowParts_buf env rest c _
    · simp only [h1, ↓reduceIte]
      generalize (if t.decoded = true then decodeCopy s else (s, none)) = dec
      rcases dec with ⟨out, _ | e⟩
      · simp only
        cases env.ParseStringAs t out with
        | error e => rfl
        | ok d =>
          simp only
          have hg := grow_buf env c (toInt64 (env.Size d))
          rcases hq : c.grow env (toInt64 (env.Size d)) with ⟨c1, _ | e⟩
          · rw [hq] at hg
            simp only
            rw [addRowParts_buf env rest c1 _]
            exact hg
          · rw [hq] at hg
            exact hg
      · rfl

/-- The method `addRow` leaves the buffer alone. -/
theorem addRow_buf {D : Type} (env : CopyEnv D) (c : copyMachine D) (line : Str) :
    (c.addRow env line).1.buf = c.buf := by
  unfold copyMachine.addRow
  dsimp only
  split_ifs with h1
  · rfl
  · have hp := addRowParts_buf env ((splitTab line).zip c.resultColumns)
      { c with addRowLines := c.addRowLines ++ [line] } []
    split
    · rename_i c1 e hq
      rw [hq] at hp
      exact hp
    · rename_i c1 tuple hq
      rw [hq] at hp
      have hg := grow_buf env c1 (toInt64 env.tupleSize)
      split
      · rename_i c2 e hr
        rw [hr] at hg
        exact hg.trans hp
      · rename_i c2 hr
        rw [hr] at hg
        exact hg.trans hp

/-- The loop of `processCopyData` does not depend on the fuel once there is a
unit of it for every byte of the buffer. -/
theorem processCopyLoop_fuel {D : Type} (env : CopyEnv D) :
    ∀ (f1 f2 : Nat) (c : copyMachine D), c.buf.length ≤ f1 → c.buf.length ≤ f2 →
      processCopyLoop env f1 c = processCopyLoop env f2 c := by
  intro f1
  induction f1 with
  | zero =>
    intro f2 c h1 _
    have hb : ¬ c.buf.length > 0 := by omega
    cases f2 with
    | zero => rfl
    | succ f2 => simp only [processCopyLoop, hb, ↓reduceIte]
  | succ f1 ih =>
    intro f2 c h1 h2
    cases f2 with
    | zero =>
      have hb : ¬ c.buf.length > 0 := by omega
      simp only [processCopyLoop, hb, ↓reduceIte]
    | succ f2 =>
      by_cases hb : c.buf.length > 0
      · have hne : c.buf ≠ [] := by
          intro h
          rw [h] at hb
          simp at hb
        have hlt := ReadBytes_rest_lt 10 c.buf hne
        simp only [processCopyLoop, hb, ↓reduceIte]
        split_ifs with hbrk
        · rfl
        · have hab := addRow_buf env { c with buf := (ReadBytes 10 c.buf).rest }
            (trimLine (ReadBytes 10 c.buf))
          split
          · rfl
          · rename_i c1 hq
            rw [hq] at hab
            have hl : c1.buf.length = (ReadBytes 10 c.buf).rest.length := by
              rw [show c1.buf = (ReadBytes 10 c.buf).rest from hab]
            exact ih f2 c1 (by omega) (by omega)
      · simp only [processCopyLoop, hb, ↓reduceIte]


/-- C17 (divergence of the code): on a table with one `String` column, the
stream `ab\n` sent as one `CopyData` message passes the one line `ab` to
`addRow`, but sent as the two messages `a` and `b\n` it passes the two lines
`a` and `b` and buffers two rows; after the message `a` alone the partial line
is already a row and the buffer is empty. -/
theorem processCopyData_split_changes_lines :
    (feed sampleCopyEnv [[97, 98, 10]] sampleMachine).map
        (fun r => (r.1.addRowLines, r.1.rows, r.1.buf, r.2))
      = Except.ok ([[97, 98]], [[Expr.datum [97, 98]]], [], none) ∧
    (feed sampleCopyEnv [[97], [98, 10]] sampleMachine).map
        (fun r => (r.1.addRowLines, r.1.rows, r.1.buf, r.2))
      = Except.ok ([[97], [98]], [[Expr.datum [97]], [Expr.datum [98]]], [], none) ∧
    (sampleMachine.processCopyData sampleCopyEnv [97] false).map
        (fun r => (r.1.addRowLines, r.1.rows, r.1.buf, r.2))
      = Except.ok ([[97]], [[Expr.datum [97]]], [], none) := by
  refine ⟨?_, ?_, ?_⟩ <;> rfl

end sql
